import Mathlib

/-!
# SourceHook manual hook handler (`sourcehook_handlers.h`)

A shallow embedding of `ManualHookHandler` from
`src/core/sourcehook/sourcehook_handlers.h`: the two trampolines `Func`
(non-void and void), the two `Recall` overloads, `GetRecallMFP`,
`SetOverrideResult`, `HookManPubFunc` and `Reconfigure`.

The host (`ISourceHook`, `IHookContext`, `IHookManagerInfo`) lives in
`sourcehook.h`, which is outside the embedded file.  Its answers are inputs of
the model: every function below takes the answers the host gives during one
call and produces, next to its result, the ordered list of host interactions it
performed.
-/

namespace SourceHook

/-! ## Meta results -/

/-- Modelled from the spec: the enumeration `META_RES` of `sourcehook.h`, whose
declaration is not part of the embedded file.  The spec fixes the four values
and their total order ignored < handled < override < supersede. -/
inductive META_RES where
  | MRES_IGNORED
  | MRES_HANDLED
  | MRES_OVERRIDE
  | MRES_SUPERCEDE
  deriving DecidableEq, Repr, Inhabited

namespace META_RES

/-- Numeric value of the enumerator; `<`, `>` and `>=` of the C++ code compare
these numbers. -/
def toNat : META_RES → Nat
  | MRES_IGNORED => 0
  | MRES_HANDLED => 1
  | MRES_OVERRIDE => 2
  | MRES_SUPERCEDE => 3

instance : LT META_RES := ⟨fun a b => a.toNat < b.toNat⟩

instance : LE META_RES := ⟨fun a b => a.toNat ≤ b.toNat⟩

instance (a b : META_RES) : Decidable (a < b) := inferInstanceAs (Decidable (a.toNat < b.toNat))

instance (a b : META_RES) : Decidable (a ≤ b) := inferInstanceAs (Decidable (a.toNat ≤ b.toNat))

/-- The larger of two meta results in the order of the enumeration (ghost
function, used to state what the running status is). -/
def sup (a b : META_RES) : META_RES := if a < b then b else a

/-- Maximum of `MRES_IGNORED` and a list of per-iteration results. -/
def supList (rs : List META_RES) : META_RES := rs.foldl sup MRES_IGNORED

end META_RES

open META_RES

/-! ## Memory seen by the non-void trampoline -/

/-- A pointer to return-value storage, as returned by `GetOverrideRetPtr()` and
`GetOrigRetPtr()`.  It is either one of the two cells of the trampoline whose
addresses were handed to `SetupHookLoop` (`&orig_ret`, `&override_ret`) or a
cell owned by the host (for instance the storage of an enclosing dispatch). -/
inductive RetPtr where
  | orig_ret
  | override_ret
  | host (k : Nat)
  deriving DecidableEq, Repr

/-- The local variables of `Func` (lines 374-381) together with the host-owned
return-value cells that the context pointers may designate. -/
structure Mem (V : Type) where
  status : META_RES
  prev_res : META_RES
  cur_res : META_RES
  orig_ret : V
  override_ret : V
  plugin_ret : V
  host : Nat → V

/-- Dereference of a return-value pointer: `*reinterpret_cast<my_rettype*>(p)`. -/
def Mem.read {V : Type} (m : Mem V) : RetPtr → V
  | .orig_ret => m.orig_ret
  | .override_ret => m.override_ret
  | .host k => m.host k

/-- Store through a return-value pointer: `*reinterpret_cast<my_rettype*>(p) = v`. -/
def Mem.write {V : Type} (m : Mem V) (p : RetPtr) (v : V) : Mem V :=
  match p with
  | .orig_ret => { m with orig_ret := v }
  | .override_ret => { m with override_ret := v }
  | .host k => { m with host := fun j => if j = k then v else m.host j }

/-! ## Host, delegates and the interaction log -/

/-- What the code reached through pointers does when the trampoline calls it.
`Call d a` is `iter->Call(params...)` for the delegate `d`: the value the hook
stores into `cur_res` through `SetRes` (`none` when it does not set a result)
and the value it returns.  `Orig a` is the original implementation reached
through `vfnptr_origentry`. -/
structure Callees (D A V : Type) where
  Call : D → A → Option META_RES × V
  Orig : A → V

/-- Modelled from the spec: the answers of the host's `IHookContext` during one
dispatch (`sourcehook.h` is not part of the embedded file).  `addr` is the
address of the context object, the pointer `SetupHookLoop` returns; `answers`
is the sequence of results of successive `GetNext()` calls (`none` is the null
pointer; once the sequence is used up `GetNext()` answers null), the other
fields are the results of `ShouldCallOrig()`, `GetOverrideRetPtr()` and
`GetOrigRetPtr()`. -/
structure HookContext (D : Type) where
  addr : Int
  answers : List (Option D)
  ShouldCallOrig : Bool
  GetOverrideRetPtr : RetPtr
  GetOrigRetPtr : RetPtr

/-- One interaction of a trampoline with the outside, in program order.
`SetupHookLoop b p` is the call of `SetupHookLoop` with (`b` true) or without
return storages, `p` being the context pointer it returned; `EndContext p` is
`g_SHPtr->EndContext(p)`.  `Iter` is a ghost entry recording the three result
cells at the end of a loop body. -/
inductive Event (D A : Type) where
  | SetupHookLoop (retStorage : Bool) (returned : Int)
  | GetNext (answer : Option D)
  | Call (d : D) (params : A) (res : META_RES)
  | Iter (status prev_res cur_res : META_RES)
  | GetOverrideRetPtr
  | ShouldCallOrig (answer : Bool)
  | Orig (params : A)
  | GetOrigRetPtr
  | EndContext (pContext : Int)
  deriving DecidableEq, Repr

/-! ## The non-void trampoline -/

/-- Body of the two `while` loops of the non-void `Func` (lines 398-406 and
422-430), for the delegate `d` just returned by `GetNext()`. -/
def loopBody {D A V : Type} (h : Callees D A V) (ctx : HookContext D) (params : A)
    (d : D) (m : Mem V) : Mem V × List (Event D A) :=
  let m1 := { m with cur_res := MRES_IGNORED }
  let r := h.Call d params
  let m2 := { m1 with cur_res := r.1.getD m1.cur_res, plugin_ret := r.2 }
  let m3 := { m2 with prev_res := m2.cur_res }
  let m4 := if m3.cur_res > m3.status then { m3 with status := m3.cur_res } else m3
  if m4.cur_res ≥ MRES_OVERRIDE then
    (m4.write ctx.GetOverrideRetPtr m4.plugin_ret,
      [.Call d params m2.cur_res, .GetOverrideRetPtr, .Iter m4.status m4.prev_res m4.cur_res])
  else
    (m4, [.Call d params m2.cur_res, .Iter m4.status m4.prev_res m4.cur_res])

/-- One `while ((iter = static_cast<IMyDelegate*>(pContext->GetNext())))` loop
of the non-void `Func`, run on the pending `GetNext()` answers.  Returns the
memory after the loop, the answers not yet consumed and the interactions. -/
def hookLoop {D A V : Type} (h : Callees D A V) (ctx : HookContext D) (params : A) :
    List (Option D) → Mem V → Mem V × List (Option D) × List (Event D A)
  | [], m => (m, [], [.GetNext none])
  | none :: rest, m => (m, rest, [.GetNext none])
  | some d :: rest, m =>
    let b := loopBody h ctx params d m
    let r := hookLoop h ctx params rest b.1
    (r.1, r.2.1, .GetNext (some d) :: (b.2 ++ r.2.2))

/-- Result of one run of a trampoline: the value handed to the caller, the
memory at the final dereference and the interactions in program order. -/
structure Outcome (D A V : Type) where
  ret : V
  mem : Mem V
  trace : List (Event D A)

/-- Lines 409-417 of the non-void `Func`: the decision whether the original is
called, and the assignment to `orig_ret`. -/
def origStep {D A V : Type} (h : Callees D A V) (ctx : HookContext D) (params : A)
    (m : Mem V) : Mem V × List (Event D A) :=
  if m.status ≠ MRES_SUPERCEDE then
    if ctx.ShouldCallOrig then
      ({ m with orig_ret := h.Orig params }, [.ShouldCallOrig true, .Orig params])
    else
      ({ m with orig_ret := m.override_ret }, [.ShouldCallOrig false])
  else
    ({ m with orig_ret := m.override_ret }, [])

/-- The locals of the non-void `Func` when the pre loop is entered: `status =
MRES_IGNORED` (line 374) and `prev_res = MRES_IGNORED` (line 394).  `junk`
holds the indeterminate initial contents of the other locals and of the host
cells. -/
def preEntry {V : Type} (junk : Mem V) : Mem V :=
  let m0 := { junk with status := MRES_IGNORED }
  { m0 with prev_res := MRES_IGNORED }

/-- Lines 374-407 of the non-void `Func`: `status = MRES_IGNORED`, the call of
`SetupHookLoop`, `prev_res = MRES_IGNORED` and the pre loop. -/
def prePass {D A V : Type} (h : Callees D A V) (ctx : HookContext D) (junk : Mem V)
    (params : A) : Mem V × List (Option D) × List (Event D A) :=
  let m1 := preEntry junk
  let pContext := ctx.addr
  let pre := hookLoop h ctx params ctx.answers m1
  (pre.1, pre.2.1, .SetupHookLoop true pContext :: pre.2.2)

/-- Lines 374-417 of the non-void `Func`: the pre pass followed by the decision
about the original. -/
def decision {D A V : Type} (h : Callees D A V) (ctx : HookContext D) (junk : Mem V)
    (params : A) : Mem V × List (Option D) × List (Event D A) :=
  let pre := prePass h ctx junk params
  let dec := origStep h ctx params pre.1
  (dec.1, pre.2.1, pre.2.2 ++ dec.2)

/-- The locals of the non-void `Func` when the post loop is entered: those the
decision left, with `prev_res = MRES_IGNORED` (line 419). -/
def postEntry {D A V : Type} (h : Callees D A V) (ctx : HookContext D) (junk : Mem V)
    (params : A) : Mem V :=
  { (decision h ctx junk params).1 with prev_res := MRES_IGNORED }

/-- Lines 374-431 of the non-void `Func`: everything up to the end of the post
loop. -/
def postPass {D A V : Type} (h : Callees D A V) (ctx : HookContext D) (junk : Mem V)
    (params : A) : Mem V × List (Option D) × List (Event D A) :=
  let dec := decision h ctx junk params
  let m2 := postEntry h ctx junk params
  let post := hookLoop h ctx params dec.2.1 m2
  (post.1, post.2.1, dec.2.2 ++ post.2.2)

/-- The trampoline `ManualHookHandler::Func` for any return type but void
(lines 368-439): the passes above, the choice of `repPtr` (lines 433-434),
`EndContext` and the final dereference.  `pContext` is the local of line 384,
which holds the pointer `SetupHookLoop` returned. -/
def Func {D A V : Type} (h : Callees D A V) (ctx : HookContext D) (junk : Mem V)
    (params : A) : Outcome D A V :=
  let pContext := ctx.addr
  let post := postPass h ctx junk params
  let m3 := post.1
  if m3.status ≥ MRES_OVERRIDE then
    { ret := m3.read ctx.GetOverrideRetPtr
      mem := m3
      trace := post.2.2 ++ [.GetOverrideRetPtr, .EndContext pContext] }
  else
    { ret := m3.read ctx.GetOrigRetPtr
      mem := m3
      trace := post.2.2 ++ [.GetOrigRetPtr, .EndContext pContext] }

/-! ## The void trampoline -/

/-- The three result cells of the void `Func` (lines 449-451); it has no
return-value storage. -/
structure Cells where
  status : META_RES
  prev_res : META_RES
  cur_res : META_RES
  deriving DecidableEq, Repr

/-- Body of the two `while` loops of the void `Func` (lines 468-473 and
489-495). -/
def loopBodyVoid {D A : Type} (h : Callees D A Unit) (params : A) (d : D) (c : Cells) :
    Cells × List (Event D A) :=
  let c1 := { c with cur_res := MRES_IGNORED }
  let r := h.Call d params
  let c2 := { c1 with cur_res := r.1.getD c1.cur_res }
  let c3 := { c2 with prev_res := c2.cur_res }
  let c4 := if c3.cur_res > c3.status then { c3 with status := c3.cur_res } else c3
  (c4, [.Call d params c2.cur_res, .Iter c4.status c4.prev_res c4.cur_res])

/-- One `while` loop of the void `Func`, run on the pending `GetNext()`
answers. -/
def hookLoopVoid {D A : Type} (h : Callees D A Unit) (params : A) :
    List (Option D) → Cells → Cells × List (Option D) × List (Event D A)
  | [], c => (c, [], [.GetNext none])
  | none :: rest, c => (c, rest, [.GetNext none])
  | some d :: rest, c =>
    let b := loopBodyVoid h params d c
    let r := hookLoopVoid h params rest b.1
    (r.1, r.2.1, .GetNext (some d) :: (b.2 ++ r.2.2))

/-- Lines 476-484 of the void `Func`: the decision whether the original is
called. -/
def origStepVoid {D A : Type} (ctx : HookContext D) (params : A) (c : Cells) :
    List (Event D A) :=
  if c.status ≠ MRES_SUPERCEDE then
    if ctx.ShouldCallOrig then [.ShouldCallOrig true, .Orig params]
    else [.ShouldCallOrig false]
  else []

/-- The cells of the void `Func` when the pre loop is entered: `status =
MRES_IGNORED` (line 449) and `prev_res = MRES_IGNORED` (line 465).  `junk`
holds the indeterminate initial content of `cur_res`. -/
def preEntryVoid (junk : Cells) : Cells :=
  let c0 := { junk with status := MRES_IGNORED }
  { c0 with prev_res := MRES_IGNORED }

/-- Lines 449-474 of the void `Func`: `status = MRES_IGNORED`, the call of
`SetupHookLoop` with null return storages, `prev_res = MRES_IGNORED` and the
pre loop. -/
def prePassVoid {D A : Type} (h : Callees D A Unit) (ctx : HookContext D) (junk : Cells)
    (params : A) : Cells × List (Option D) × List (Event D A) :=
  let c1 := preEntryVoid junk
  let pContext := ctx.addr
  let pre := hookLoopVoid h params ctx.answers c1
  (pre.1, pre.2.1, .SetupHookLoop false pContext :: pre.2.2)

/-- The cells of the void `Func` when the post loop is entered: those the pre
loop left, with `prev_res = MRES_IGNORED` (line 486). -/
def postEntryVoid {D A : Type} (h : Callees D A Unit) (ctx : HookContext D) (junk : Cells)
    (params : A) : Cells :=
  { (prePassVoid h ctx junk params).1 with prev_res := MRES_IGNORED }

/-- The trampoline `ManualHookHandler::Func` for the void return type (lines
443-499).  Returns the cells at the end and the interactions. -/
def FuncVoid {D A : Type} (h : Callees D A Unit) (ctx : HookContext D) (junk : Cells)
    (params : A) : Cells × List (Event D A) :=
  let pContext := ctx.addr
  let pre := prePassVoid h ctx junk params
  let dec := origStepVoid ctx params pre.1
  let c2 := postEntryVoid h ctx junk params
  let post := hookLoopVoid h params pre.2.1 c2
  (post.1, pre.2.2 ++ dec ++ post.2.2 ++ [.EndContext pContext])

/-! ## Ghost functions used to state the properties -/

/-- The delegates a loop visits: the answers of `GetNext()` up to the first
null answer. -/
def chainOf {D : Type} : List (Option D) → List D
  | some d :: rest => d :: chainOf rest
  | _ => []

/-- The `GetNext()` answers still pending once a loop has seen its null
answer. -/
def afterChain {D : Type} : List (Option D) → List (Option D)
  | some _ :: rest => afterChain rest
  | none :: rest => rest
  | [] => []

/-- Delegates visited by the pre pass of a dispatch in context `ctx`. -/
def HookContext.preChain {D : Type} (ctx : HookContext D) : List D :=
  chainOf ctx.answers

/-- Delegates visited by the post pass of a dispatch in context `ctx`. -/
def HookContext.postChain {D : Type} (ctx : HookContext D) : List D :=
  chainOf (afterChain ctx.answers)

/-- The per-iteration result of delegate `d`: the value of `cur_res` when its
`Call` returns (`cur_res` was reset to `MRES_IGNORED` just before). -/
def resultOf {D A V : Type} (h : Callees D A V) (params : A) (d : D) : META_RES :=
  (h.Call d params).1.getD MRES_IGNORED

/-- The per-iteration results of a list of delegates. -/
def resultsOf {D A V : Type} (h : Callees D A V) (params : A) (ds : List D) : List META_RES :=
  ds.map (resultOf h params)

/-- The `Call` entries of a log: delegate, arguments and per-iteration result,
in program order. -/
def callsOf {D A : Type} : List (Event D A) → List (D × A × META_RES)
  | [] => []
  | .Call d a r :: t => (d, a, r) :: callsOf t
  | _ :: t => callsOf t

/-- The arguments of the invocations of the original in a log, in program
order. -/
def origsOf {D A : Type} : List (Event D A) → List A
  | [] => []
  | .Orig a :: t => a :: origsOf t
  | _ :: t => origsOf t

/-- The `Call` entries a pass over the delegates `ds` must produce. -/
def expectedCalls {D A V : Type} (h : Callees D A V) (params : A) (ds : List D) :
    List (D × A × META_RES) :=
  ds.map (fun d => (d, params, resultOf h params d))

/-- The host query made by the decision step: `ShouldCallOrig()` is asked only
when the status is not `MRES_SUPERCEDE` (the `&&` of lines 409 and 476). -/
def decisionQuery {D A : Type} (ctx : HookContext D) (s : META_RES) : List (Event D A) :=
  if s ≠ MRES_SUPERCEDE then [.ShouldCallOrig ctx.ShouldCallOrig] else []

/-- The value returned by the last delegate of `ds`, in visiting order, whose
per-iteration result is `MRES_OVERRIDE` or higher; `none` when there is no
such delegate. -/
def lastOverride {D A V : Type} (h : Callees D A V) (params : A) (ds : List D) : Option V :=
  ((ds.filter (fun d => decide (MRES_OVERRIDE ≤ resultOf h params d))).getLast?).map
    (fun d => (h.Call d params).2)


/-- The per-iteration results of the `Call` entries of a log, in program
order. -/
def resultsIn {D A : Type} (t : List (Event D A)) : List META_RES :=
  (callsOf t).map (fun x => x.2.2)

/-- The values of `status` recorded at the end of each loop body of a log, in
program order. -/
def statusesOf {D A : Type} : List (Event D A) → List META_RES
  | [] => []
  | .Iter s _ _ :: t => s :: statusesOf t
  | _ :: t => statusesOf t

/-- Every recorded value of `status` in the log equals the maximum of `acc` and
the per-iteration results of the `Call` entries before it. -/
def snapshotsAgree {D A : Type} : META_RES → List (Event D A) → Prop
  | _, [] => True
  | acc, .Call _ _ r :: t => snapshotsAgree (sup acc r) t
  | acc, .Iter s _ _ :: t => s = acc ∧ snapshotsAgree acc t
  | acc, _ :: t => snapshotsAgree acc t


/-- The answers of the `GetNext()` calls of a log, in program order. -/
def nextsOf {D A : Type} : List (Event D A) → List (Option D)
  | [] => []
  | .GetNext x :: t => x :: nextsOf t
  | _ :: t => nextsOf t

/-- The delegates of the `Call` entries of a log, in program order. -/
def calledOf {D A : Type} (t : List (Event D A)) : List D :=
  (callsOf t).map (fun x => x.1)


/-! ## Example data -/

/-- Example callees over `Nat`: delegate 1 reports `MRES_OVERRIDE` and returns
5, delegate 2 reports `MRES_HANDLED` and returns 6, delegate 3 reports
`MRES_OVERRIDE` and returns 7, delegate 4 reports `MRES_SUPERCEDE` and returns
9, any other delegate sets no result and returns 0; the original returns 3. -/
def exCallees : Callees Nat Nat Nat where
  Call := fun d _ =>
    if d = 1 then (some MRES_OVERRIDE, 5)
    else if d = 2 then (some MRES_HANDLED, 6)
    else if d = 3 then (some MRES_OVERRIDE, 7)
    else if d = 4 then (some MRES_SUPERCEDE, 9)
    else (none, 0)
  Orig := fun _ => 3

/-- The example callees for a void signature: the same results, no values. -/
def exCalleesVoid : Callees Nat Nat Unit where
  Call := fun d a => ((exCallees.Call d a).1, ())
  Orig := fun _ => ()

/-- Example initial memory: every value cell holds 0. -/
def exJunk : Mem Nat where
  status := MRES_HANDLED
  prev_res := MRES_HANDLED
  cur_res := MRES_HANDLED
  orig_ret := 0
  override_ret := 0
  plugin_ret := 0
  host := fun _ => 0

/-- Example initial result cells of the void trampoline. -/
def exCells : Cells where
  status := MRES_HANDLED
  prev_res := MRES_HANDLED
  cur_res := MRES_HANDLED

/-- Example context: pre-hook 1, post-hooks 2 and 3, the original may run and
the return storages are the cells of the trampoline. -/
def exCtx : HookContext Nat where
  addr := 7000
  answers := [some 1, none, some 2, some 3, none]
  ShouldCallOrig := true
  GetOverrideRetPtr := RetPtr.override_ret
  GetOrigRetPtr := RetPtr.orig_ret

/-- Example context of a nested dispatch: pre-hook 4, no post-hook, and the
override storage is the host cell 0 instead of the `override_ret` local. -/
def exCtxHostStorage : HookContext Nat where
  addr := 7000
  answers := [some 4, none, none]
  ShouldCallOrig := true
  GetOverrideRetPtr := RetPtr.host 0
  GetOrigRetPtr := RetPtr.orig_ret

/-- Example context in which the host forbids the original: pre-hook 2 only. -/
def exCtxNoOrig : HookContext Nat where
  addr := 7000
  answers := [some 2, none, none]
  ShouldCallOrig := false
  GetOverrideRetPtr := RetPtr.override_ret
  GetOrigRetPtr := RetPtr.orig_ret


/-! ## Method location and `GetRecallMFP` -/

/-- Modelled from the spec: the structure `MemFuncInfo` of `sourcehook.h` (the
MethodLocation of the spec), whose declaration is not part of the embedded
file; the embedded file reads and writes the fields `thisptroffs`, `vtblindex`
and `vtbloffs` and initialises the structure as `{false, 0, 0, 0}`. -/
structure MemFuncInfo where
  isVirtual : Bool
  thisptroffs : Int
  vtblindex : Int
  vtbloffs : Int
  deriving DecidableEq, Repr

/-- The process memory as far as the handler reads it: `readPtr a` is the
pointer stored at byte address `a`, `ptrSize` is `sizeof(void*)`. -/
structure PtrMem where
  readPtr : Int → Int
  ptrSize : Int

/-- The address part of the member function pointer built by `GetRecallMFP`
(lines 528-544): entry `vtblindex` of the vtable whose pointer is stored at
`thisptr + vtbloffs`.  The adjustor part is 0. -/
def GetRecallMFP (mem : PtrMem) (msMFI_ : MemFuncInfo) (thisptr : Int) : Int × Int :=
  (mem.readPtr (mem.readPtr (thisptr + msMFI_.vtbloffs) + msMFI_.vtblindex * mem.ptrSize), 0)

/-! ## Recall -/

/-- One interaction of `Recall` with the host `g_SHPtr` or with the code it
calls, in program order.  `Invoke fn this args` is the call of the function at
address `fn` on the object `this`. -/
inductive RecallEvent (A V : Type) where
  | SetRes (r : META_RES)
  | DoRecall
  | OverrideWrite (v : V)
  | GetIfacePtr
  | Invoke (fn : Int) (thisptr : Int) (args : A)
  deriving DecidableEq, Repr

/-- What `Recall` obtains from outside: the answer of `GetIfacePtr()`, the
memory holding the vtables, and the value returned by the code at an address
when called on an object with arguments. -/
structure RecallEnv (A V : Type) where
  GetIfacePtr : Int
  mem : PtrMem
  invoke : Int → Int → A → V

/-- Modelled from the spec: the functor returned by
`SourceHook::SetOverrideResult<U>()` of `sourcehook.h`, which is not part of
the embedded file; applied to the host and a value it writes the value into
the override storage.  The member `SetOverrideResult` (lines 562-566) obtains
the functor and applies it. -/
def SetOverrideResult {A V : Type} (value : V) : List (RecallEvent A V) :=
  [.OverrideWrite value]

/-- The member `ManualHookHandler::Recall` for the void return type (lines
311-318): the interactions in program order. -/
def RecallVoid {A : Type} (env : RecallEnv A Unit) (msMFI_ : MemFuncInfo) (result : META_RES)
    (newparams : A) : List (RecallEvent A Unit) :=
  let thisptr := env.GetIfacePtr
  let mfp := GetRecallMFP env.mem msMFI_ thisptr
  [.SetRes result, .DoRecall, .GetIfacePtr, .Invoke mfp.1 (thisptr + mfp.2) newparams,
    .SetRes MRES_SUPERCEDE]

/-- The member `ManualHookHandler::Recall` for any return type but void (lines
322-334): the returned value and the interactions in program order. -/
def Recall {A V : Type} (env : RecallEnv A V) (msMFI_ : MemFuncInfo) (result : META_RES)
    (value : V) (newparams : A) : V × List (RecallEvent A V) :=
  let t1 : List (RecallEvent A V) := [.SetRes result, .DoRecall]
  let t2 : List (RecallEvent A V) :=
    if result ≥ MRES_OVERRIDE then SetOverrideResult value else []
  let thisptr := env.GetIfacePtr
  let t3 : List (RecallEvent A V) := [.GetIfacePtr, .SetRes MRES_SUPERCEDE]
  let mfp := GetRecallMFP env.mem msMFI_ thisptr
  (env.invoke mfp.1 (thisptr + mfp.2) newparams,
    t1 ++ t2 ++ t3 ++ [.Invoke mfp.1 (thisptr + mfp.2) newparams])

/-- The entries of a `Recall` log before its first `Invoke` entry. -/
def beforeInvoke {A V : Type} : List (RecallEvent A V) → List (RecallEvent A V)
  | [] => []
  | .Invoke _ _ _ :: _ => []
  | e :: t => e :: beforeInvoke t

/-- The entries of a `Recall` log after its first `Invoke` entry. -/
def afterInvoke {A V : Type} : List (RecallEvent A V) → List (RecallEvent A V)
  | [] => []
  | .Invoke _ _ _ :: t => t
  | _ :: t => afterInvoke t

/-- The `Invoke` entries of a `Recall` log, in program order. -/
def invokesOf {A V : Type} : List (RecallEvent A V) → List (Int × Int × A)
  | [] => []
  | .Invoke f t a :: r => (f, t, a) :: invokesOf r
  | _ :: r => invokesOf r

/-- The values written to the override storage in a `Recall` log, in program
order. -/
def overrideWritesOf {A V : Type} : List (RecallEvent A V) → List V
  | [] => []
  | .OverrideWrite v :: r => v :: overrideWritesOf r
  | _ :: r => overrideWritesOf r

/-- Example environment of `Recall`: the interface object is at address 1000,
its vtable pointer (at offset 8) is 2000, entry 3 of that vtable holds the
function address 5000, pointers are 8 bytes wide, and the function at address
`fn` called on `this` with argument `a` returns `fn + this + a`. -/
def exRecallEnv : RecallEnv Nat Int where
  GetIfacePtr := 1000
  mem := { readPtr := fun a => if a = 1008 then 2000 else if a = 2024 then 5000 else 0,
           ptrSize := 8 }
  invoke := fun fn this a => fn + this + a

/-- The example environment for a void signature. -/
def exRecallEnvVoid : RecallEnv Nat Unit where
  GetIfacePtr := 1000
  mem := exRecallEnv.mem
  invoke := fun _ _ _ => ()

/-- The version constants `SH_IFACE_VERSION`, `SH_IMPL_VERSION` and
`SH_HOOKMAN_VERSION`: macros of `sourcehook.h`, which is not part of the
embedded file, taken as parameters. -/
structure Versions where
  SH_IFACE_VERSION : Int
  SH_IMPL_VERSION : Int
  SH_HOOKMAN_VERSION : Int

/-- What the registration code obtains from outside: the answers of
`g_SHPtr->GetIfaceVersion()` and `g_SHPtr->GetImplVersion()`, the address of
the handler object (`this`), the address of its `msProto_` member, the
location `GetFuncInfo` reports for `&ThisType::Func`, and the memory. -/
structure RegEnv where
  GetIfaceVersion : Int
  GetImplVersion : Int
  thisAddr : Int
  protoAddr : Int
  funcInfo : MemFuncInfo
  mem : PtrMem

/-- The data members of a `ManualHookHandler` that registration touches
(lines 569-570); `msHI_` is a pointer, `none` is the null pointer. -/
structure Handler (H : Type) where
  msMFI_ : MemFuncInfo
  msHI_ : Option H
  deriving DecidableEq, Repr

/-- The state the constructor leaves (lines 257-262). -/
def Handler.init (H : Type) : Handler H :=
  { msMFI_ := { isVirtual := false, thisptroffs := 0, vtblindex := 0, vtbloffs := 0 }
    msHI_ := none }

/-- One interaction of the registration code with the host, in program order.
`SetInfo hi v offs idx proto vfn` is `hi->SetInfo(v, offs, idx, proto, vfn)`.
`RemoveHookManager loc` is `g_SHPtr->RemoveHookManager(g_PLID, this)`, where
`loc` records the content of `this->msMFI_` at the time of the call. -/
inductive RegEvent (H : Type) where
  | GetIfaceVersion
  | GetImplVersion
  | RemoveHookManager (loc : MemFuncInfo)
  | GetFuncInfo
  | SetInfo (hi : H) (hookman_version vtbloffs vtblindex proto hookfunc_vfnptr : Int)
  deriving DecidableEq, Repr

/-- The member `ManualHookHandler::HookManPubFunc` (lines 501-526): the
returned value, the handler afterwards and the interactions in program order. -/
def HookManPubFunc {H : Type} (k : Versions) (env : RegEnv) (self : Handler H) (store : Bool)
    (hi : Option H) : Int × Handler H × List (RegEvent H) :=
  if env.GetIfaceVersion ≠ k.SH_IFACE_VERSION then
    (1, self, [.GetIfaceVersion])
  else if env.GetImplVersion < k.SH_IMPL_VERSION then
    (1, self, [.GetIfaceVersion, .GetImplVersion])
  else
    let self1 := if store then { self with msHI_ := hi } else self
    match hi with
    | some p =>
      let mfi := env.funcInfo
      (0, self1, [.GetIfaceVersion, .GetImplVersion, .GetFuncInfo,
        .SetInfo p k.SH_HOOKMAN_VERSION self1.msMFI_.vtbloffs self1.msMFI_.vtblindex
          env.protoAddr
          (env.mem.readPtr (env.thisAddr + mfi.vtbloffs + mfi.vtblindex * env.mem.ptrSize))])
    | none => (0, self1, [.GetIfaceVersion, .GetImplVersion])

/-- The member `ManualHookHandler::Reconfigure` (lines 277-283): the handler
afterwards and the interactions in program order.  A C++ caller that omits
`vtbloffs` or `thisptroffs` passes 0. -/
def Reconfigure {H : Type} (self : Handler H) (vtblindex : Int) (vtbloffs : Int)
    (thisptroffs : Int) : Handler H × List (RegEvent H) :=
  let log : List (RegEvent H) := [.RemoveHookManager self.msMFI_]
  let s1 := { self with msMFI_ := { self.msMFI_ with thisptroffs := thisptroffs } }
  let s2 := { s1 with msMFI_ := { s1.msMFI_ with vtblindex := vtblindex } }
  let s3 := { s2 with msMFI_ := { s2.msMFI_ with vtbloffs := vtbloffs } }
  (s3, log)

/-- The call `Reconfigure(vtblindex)`: the default arguments of the declaration
(line 277) supply `vtbloffs = 0` and `thisptroffs = 0`. -/
def Reconfigure_1 {H : Type} (self : Handler H) (vtblindex : Int) :
    Handler H × List (RegEvent H) :=
  Reconfigure self vtblindex 0 0

/-- The call `Reconfigure(vtblindex, vtbloffs)`: the default argument of the
declaration (line 277) supplies `thisptroffs = 0`. -/
def Reconfigure_2 {H : Type} (self : Handler H) (vtblindex : Int) (vtbloffs : Int) :
    Handler H × List (RegEvent H) :=
  Reconfigure self vtblindex vtbloffs 0

/-- The `SetInfo` entries of a registration log. -/
def setInfosOf {H : Type} : List (RegEvent H) → List (RegEvent H)
  | [] => []
  | .SetInfo p v o i q f :: t => .SetInfo p v o i q f :: setInfosOf t
  | _ :: t => setInfosOf t

/-- Example version constants. -/
def exVersions : Versions where
  SH_IFACE_VERSION := 5
  SH_IMPL_VERSION := 5
  SH_HOOKMAN_VERSION := 1

/-- Example host whose implementation version 4 is below the expected 5. -/
def exRegEnvOld : RegEnv where
  GetIfaceVersion := 5
  GetImplVersion := 4
  thisAddr := 1000
  protoAddr := 1040
  funcInfo := { isVirtual := true, thisptroffs := 0, vtblindex := 2, vtbloffs := 0 }
  mem := { readPtr := fun a => a + 1, ptrSize := 8 }

/-- Example host whose versions are the expected ones. -/
def exRegEnv : RegEnv where
  GetIfaceVersion := 5
  GetImplVersion := 6
  thisAddr := 1000
  protoAddr := 1040
  funcInfo := { isVirtual := true, thisptroffs := 0, vtblindex := 2, vtbloffs := 0 }
  mem := { readPtr := fun a => a + 1, ptrSize := 8 }

/-! ## Type descriptors -/

/-- Modelled from the spec: the structure `PassInfo` of `sourcehook.h` (the
TypeDescriptor of the spec: byte size, transfer kind, flags), whose
declaration is not part of the embedded file. -/
structure PassInfo where
  size : Nat
  type : Int
  flags : Nat
  deriving DecidableEq, Repr

/-- A C++ type as the descriptor templates see it: `void`, or a type `t` that
has a size. -/
inductive CType (T : Type) where
  | void
  | of (t : T)
  deriving DecidableEq, Repr

/-- What the compiler and `sourcehook.h` give for a non-void type: `sizeof(T)`
and the constants `GetPassInfo<T>::type` and `GetPassInfo<T>::flags`.  The
template `GetPassInfo` is not part of the embedded file and is taken as a
parameter. -/
structure TypeTraits (T : Type) where
  sizeof : T → Nat
  passType : T → Int
  passFlags : T → Nat

/-- The function template `TypeInfo<T>(PassInfo&)` (lines 35-41) and its
specialisation `TypeInfo<void>` (lines 44-50): the descriptor after the three
assignments. -/
def TypeInfo {T : Type} (tr : TypeTraits T) (ty : CType T) (passInfo : PassInfo) : PassInfo :=
  match ty with
  | .of t =>
    let p1 := { passInfo with size := tr.sizeof t }
    let p2 := { p1 with type := tr.passType t }
    { p2 with flags := tr.passFlags t }
  | .void =>
    let p1 := { passInfo with size := 1 }
    let p2 := { p1 with type := 0 }
    { p2 with flags := 0 }

/-- The member `ReturnTypeInfo<T>::size()` (lines 122-125) and
`ReturnTypeInfo<void>::size()` (lines 141-144). -/
def ReturnTypeInfo.size {T : Type} (tr : TypeTraits T) : CType T → Nat
  | .of t => tr.sizeof t
  | .void => 0

/-- The member `ReturnTypeInfo<T>::type()` (lines 127-130) and
`ReturnTypeInfo<void>::type()` (lines 146-149). -/
def ReturnTypeInfo.type {T : Type} (tr : TypeTraits T) : CType T → Int
  | .of t => tr.passType t
  | .void => 0

/-- The member `ReturnTypeInfo<T>::flags()` (lines 132-135) and
`ReturnTypeInfo<void>::flags()` (lines 151-154). -/
def ReturnTypeInfo.flags {T : Type} (tr : TypeTraits T) : CType T → Nat
  | .of t => tr.passFlags t
  | .void => 0

/-- The array `params_` during construction: its entries by index, and the
indices assigned so far, in program order (ghost). -/
structure ParamsArray where
  entries : Nat → PassInfo
  written : List Nat

/-- The two member templates `InitializePassInfo<size, index, T, Next...>`
(lines 77-88) on the remaining argument types: the first is chosen while more
than one type remains, assigns `params_[index]` and continues at `index + 1`;
the second handles the last type. -/
def InitializePassInfo {T : Type} (tr : TypeTraits T) :
    Nat → List T → ParamsArray → ParamsArray
  | _, [], a => a
  | index, [t], a =>
    { entries := fun j => if j = index then TypeInfo tr (.of t) (a.entries index)
        else a.entries j
      written := a.written ++ [index] }
  | index, t :: u :: next, a =>
    InitializePassInfo tr (index + 1) (u :: next)
      { entries := fun j => if j = index then TypeInfo tr (.of t) (a.entries index)
          else a.entries j
        written := a.written ++ [index] }

/-- The class template `PassInfoInitializer<ArgsType...>` (lines 52-92) and its
specialisation for zero arguments (lines 95-117).  `params_` is `none` for the
specialisation, which has no array. -/
structure PassInfoInitializer where
  count : Nat
  params_ : Option ParamsArray

/-- The constructors of `PassInfoInitializer` (lines 56-59 and 99-101).
`junk` holds the indeterminate initial contents of the array. -/
def PassInfoInitializer.new {T : Type} (tr : TypeTraits T) (args : List T)
    (junk : Nat → PassInfo) : PassInfoInitializer :=
  match args with
  | [] => { count := 0, params_ := none }
  | t :: next =>
    { count := (t :: next).length
      params_ := some (InitializePassInfo tr 0 (t :: next) { entries := junk, written := [] }) }

/-- The member `GetParamsPassInfo` of `PassInfoInitializer` (lines 61-64 and
103-106): the array, or the null pointer (`none`). -/
def PassInfoInitializer.GetParamsPassInfo (p : PassInfoInitializer) : Option (Nat → PassInfo) :=
  p.params_.map (fun a => a.entries)

/-- The member `GetParamsPassInfoSize` of `PassInfoInitializer` (lines 71-74
and 113-116). -/
def PassInfoInitializer.GetParamsPassInfoSize (p : PassInfoInitializer) : Nat :=
  p.count

/-- The members `retPassInfo` and `paramsPassInfo` of `CProtoInfo` (lines
237-239). -/
structure CProtoInfo where
  retPassInfo : PassInfo
  paramsPassInfo : PassInfoInitializer

/-- The constructor of `CProtoInfo<ReturnType, Params...>` (lines 188-193). -/
def CProtoInfo.new {T : Type} (tr : TypeTraits T) (ret : CType T) (params : List T)
    (junk : Nat → PassInfo) : CProtoInfo :=
  { retPassInfo :=
      { size := ReturnTypeInfo.size tr ret
        type := ReturnTypeInfo.type tr ret
        flags := ReturnTypeInfo.flags tr ret }
    paramsPassInfo := PassInfoInitializer.new tr params junk }

/-- The member `CProtoInfo::GetNumOfParams` (lines 199-202). -/
def CProtoInfo.GetNumOfParams (c : CProtoInfo) : Nat :=
  c.paramsPassInfo.GetParamsPassInfoSize

/-- The member `CProtoInfo::GetRetPassInfo` (lines 204-207). -/
def CProtoInfo.GetRetPassInfo (c : CProtoInfo) : PassInfo :=
  c.retPassInfo

/-- The member `CProtoInfo::GetParamsPassInfo` (lines 209-212). -/
def CProtoInfo.GetParamsPassInfo (c : CProtoInfo) : Option (Nat → PassInfo) :=
  c.paramsPassInfo.GetParamsPassInfo

/-- The descriptor of a non-void type: its size and the two `GetPassInfo`
constants. -/
def descriptorOf {T : Type} (tr : TypeTraits T) (t : T) : PassInfo :=
  { size := tr.sizeof t, type := tr.passType t, flags := tr.passFlags t }

/-- Example type traits: a type is named by its size in bytes; its transfer
kind is 1 and its flags are 1. -/
def exTraits : TypeTraits Nat where
  sizeof := fun t => t
  passType := fun _ => 1
  passFlags := fun _ => 1

/-- Example indeterminate array contents. -/
def exJunkInfo : Nat → PassInfo := fun _ => { size := 99, type := 99, flags := 99 }

/-! ## Ghost functions for comparing and inspecting whole logs -/

/-- The three result cells among the locals of the non-void `Func`: `status`,
`prev_res` and `cur_res`. -/
def Mem.cells {V : Type} (m : Mem V) : Cells :=
  { status := m.status, prev_res := m.prev_res, cur_res := m.cur_res }

/-- The callees of the void signature that correspond to `h`: every delegate
sets the same result, the returned values are dropped. -/
def Callees.forget {D A V : Type} (h : Callees D A V) : Callees D A Unit where
  Call := fun d a => ((h.Call d a).1, ())
  Orig := fun _ => ()

/-- A log with the return-value bookkeeping taken out: `SetupHookLoop` is given
null return storages and the calls of `GetOverrideRetPtr()` and
`GetOrigRetPtr()` are dropped; every other entry is kept. -/
def voidView {D A : Type} : List (Event D A) → List (Event D A)
  | [] => []
  | .SetupHookLoop _ p :: t => .SetupHookLoop false p :: voidView t
  | .GetOverrideRetPtr :: t => voidView t
  | .GetOrigRetPtr :: t => voidView t
  | e :: t => e :: voidView t

/-- The values of `status`, `prev_res` and `cur_res` recorded at the end of
each loop body of a log, in program order. -/
def itersOf {D A : Type} : List (Event D A) → List (META_RES × META_RES × META_RES)
  | [] => []
  | .Iter s p c :: t => (s, p, c) :: itersOf t
  | _ :: t => itersOf t

/-- The `SetupHookLoop` and `EndContext` entries of a log, in program order. -/
def lifecycleOf {D A : Type} : List (Event D A) → List (Event D A)
  | [] => []
  | .SetupHookLoop b p :: t => .SetupHookLoop b p :: lifecycleOf t
  | .EndContext p :: t => .EndContext p :: lifecycleOf t
  | _ :: t => lifecycleOf t

/-- The number of calls of `GetOverrideRetPtr()` in a log. -/
def overridePtrCalls {D A : Type} : List (Event D A) → Nat
  | [] => 0
  | .GetOverrideRetPtr :: t => overridePtrCalls t + 1
  | _ :: t => overridePtrCalls t

/-- Example context of the scenario of the spec: no pre-hook, the post-hooks 2
(handled, returns 6) and 3 (override, returns 7), the original may run. -/
def exCtxScenario : HookContext Nat where
  addr := 7000
  answers := [none, some 2, some 3, none]
  ShouldCallOrig := true
  GetOverrideRetPtr := RetPtr.override_ret
  GetOrigRetPtr := RetPtr.orig_ret

/-- Example context whose hooks leave the call alone: pre-hook 2 (handled),
post-hooks 5 (sets no result) and 2. -/
def exCtxTransparent : HookContext Nat where
  addr := 7000
  answers := [some 2, none, some 5, some 2, none]
  ShouldCallOrig := true
  GetOverrideRetPtr := RetPtr.override_ret
  GetOrigRetPtr := RetPtr.orig_ret

end SourceHook

namespace SourceHook

open META_RES

/-! ## The order on meta results -/

theorem META_RES.le_iff (a b : META_RES) : a ≤ b ↔ a.toNat ≤ b.toNat := Iff.rfl

theorem META_RES.lt_iff (a b : META_RES) : a < b ↔ a.toNat < b.toNat := Iff.rfl

theorem META_RES.toNat_inj {a b : META_RES} (hab : a.toNat = b.toNat) : a = b := by
  cases a <;> cases b <;> simp [META_RES.toNat] at hab <;> rfl

theorem META_RES.toNat_le_three (a : META_RES) : a.toNat ≤ 3 := by
  cases a <;> simp [META_RES.toNat]

theorem META_RES.toNat_sup (a b : META_RES) : (sup a b).toNat = max a.toNat b.toNat := by
  unfold sup
  by_cases hlt : a < b
  · rw [if_pos hlt]
    rw [META_RES.lt_iff] at hlt
    omega
  · rw [if_neg hlt]
    rw [META_RES.lt_iff] at hlt
    omega

theorem META_RES.toNat_foldl_sup (rs : List META_RES) (a : META_RES) :
    (rs.foldl sup a).toNat = max a.toNat (supList rs).toNat := by
  unfold supList
  induction rs using List.reverseRecOn with
  | nil => simp [META_RES.toNat]
  | append_singleton l r ih =>
    simp only [List.foldl_append, List.foldl_cons, List.foldl_nil, META_RES.toNat_sup, ih]
    omega

theorem META_RES.foldl_sup_eq (rs : List META_RES) (a : META_RES) :
    rs.foldl sup a = sup a (supList rs) := by
  apply META_RES.toNat_inj
  rw [META_RES.toNat_foldl_sup, META_RES.toNat_sup]

theorem META_RES.supList_append (rs ss : List META_RES) :
    supList (rs ++ ss) = sup (supList rs) (supList ss) := by
  have hfold : supList (rs ++ ss) = ss.foldl sup (supList rs) := by
    simp [supList, List.foldl_append]
  rw [hfold, META_RES.foldl_sup_eq]

theorem META_RES.le_supList_of_mem {r : META_RES} {rs : List META_RES} (hr : r ∈ rs) :
    r ≤ supList rs := by
  induction rs using List.reverseRecOn with
  | nil => simp at hr
  | append_singleton l x ih =>
    rw [META_RES.supList_append, META_RES.le_iff, META_RES.toNat_sup]
    rcases List.mem_append.mp hr with hl | hx
    · have hle := ih hl
      rw [META_RES.le_iff] at hle
      omega
    · simp only [List.mem_singleton] at hx
      subst hx
      have hone : (supList [r]).toNat = max MRES_IGNORED.toNat r.toNat := by
        simp only [supList, List.foldl_cons, List.foldl_nil, META_RES.toNat_sup]
      have hzero : MRES_IGNORED.toNat = 0 := rfl
      omega

theorem META_RES.supList_mem_or (rs : List META_RES) :
    supList rs = MRES_IGNORED ∨ supList rs ∈ rs := by
  induction rs using List.reverseRecOn with
  | nil => left; rfl
  | append_singleton l x ih =>
    have hfold : supList (l ++ [x]) = sup (supList l) x := by
      simp [supList, List.foldl_append]
    rw [hfold]
    unfold sup
    by_cases hlt : supList l < x
    · rw [if_pos hlt]; right; simp
    · rw [if_neg hlt]
      rcases ih with h0 | hm
      · left; exact h0
      · right; exact List.mem_append_left _ hm

/-! ## One loop body -/

section body

variable {D A V : Type}

@[simp] theorem Mem.write_status (m : Mem V) (p : RetPtr) (v : V) :
    (m.write p v).status = m.status := by
  cases p <;> rfl

@[simp] theorem Mem.write_prev_res (m : Mem V) (p : RetPtr) (v : V) :
    (m.write p v).prev_res = m.prev_res := by
  cases p <;> rfl

@[simp] theorem Mem.write_cur_res (m : Mem V) (p : RetPtr) (v : V) :
    (m.write p v).cur_res = m.cur_res := by
  cases p <;> rfl

theorem Mem.read_write_same (m : Mem V) (p : RetPtr) (v : V) :
    (m.write p v).read p = v := by
  cases p <;> simp [Mem.write, Mem.read]

theorem loopBody_status (h : Callees D A V) (ctx : HookContext D) (params : A) (d : D)
    (m : Mem V) :
    (loopBody h ctx params d m).1.status = sup m.status (resultOf h params d) := by
  unfold loopBody resultOf sup
  simp only [gt_iff_lt, ge_iff_le]
  split_ifs <;> simp

theorem loopBody_trace (h : Callees D A V) (ctx : HookContext D) (params : A) (d : D)
    (m : Mem V) :
    (loopBody h ctx params d m).2 =
      if MRES_OVERRIDE ≤ resultOf h params d then
        [.Call d params (resultOf h params d), .GetOverrideRetPtr,
          .Iter (sup m.status (resultOf h params d)) (resultOf h params d)
            (resultOf h params d)]
      else
        [.Call d params (resultOf h params d),
          .Iter (sup m.status (resultOf h params d)) (resultOf h params d)
            (resultOf h params d)] := by
  unfold loopBody resultOf sup
  simp only [gt_iff_lt, ge_iff_le]
  split_ifs <;> simp

theorem loopBodyVoid_status (h : Callees D A Unit) (params : A) (d : D) (c : Cells) :
    (loopBodyVoid h params d c).1.status = sup c.status (resultOf h params d) := by
  unfold loopBodyVoid resultOf sup
  simp only [gt_iff_lt]
  split_ifs <;> simp

theorem loopBodyVoid_trace (h : Callees D A Unit) (params : A) (d : D) (c : Cells) :
    (loopBodyVoid h params d c).2 =
      [.Call d params (resultOf h params d),
        .Iter (sup c.status (resultOf h params d)) (resultOf h params d)
          (resultOf h params d)] := by
  unfold loopBodyVoid resultOf sup
  simp only [gt_iff_lt]
  split_ifs <;> simp

end body

/-! ## Logs -/

section logs

variable {D A V : Type}

theorem callsOf_append (t u : List (Event D A)) : callsOf (t ++ u) = callsOf t ++ callsOf u := by
  induction t with
  | nil => rfl
  | cons e t ih => cases e <;> simp [callsOf, ih]

theorem origsOf_append (t u : List (Event D A)) : origsOf (t ++ u) = origsOf t ++ origsOf u := by
  induction t with
  | nil => rfl
  | cons e t ih => cases e <;> simp [origsOf, ih]

theorem chainOf_map_some (ds : List D) (rest : List (Option D)) :
    chainOf (ds.map some ++ none :: rest) = ds := by
  induction ds with
  | nil => rfl
  | cons d ds ih => simp [chainOf, ih]

theorem afterChain_map_some (ds : List D) (rest : List (Option D)) :
    afterChain (ds.map some ++ none :: rest) = rest := by
  induction ds with
  | nil => rfl
  | cons d ds ih => simp [afterChain, ih]

theorem hookLoop_rest (h : Callees D A V) (ctx : HookContext D) (params : A)
    (ans : List (Option D)) (m : Mem V) :
    (hookLoop h ctx params ans m).2.1 = afterChain ans := by
  induction ans generalizing m with
  | nil => rfl
  | cons x rest ih =>
    cases x with
    | none => rfl
    | some d => simp [hookLoop, afterChain, ih]

theorem hookLoop_status (h : Callees D A V) (ctx : HookContext D) (params : A)
    (ans : List (Option D)) (m : Mem V) :
    (hookLoop h ctx params ans m).1.status =
      sup m.status (supList (resultsOf h params (chainOf ans))) := by
  rw [← META_RES.foldl_sup_eq]
  induction ans generalizing m with
  | nil => rfl
  | cons x rest ih =>
    cases x with
    | none => rfl
    | some d => simp [hookLoop, chainOf, resultsOf, ih, loopBody_status]

theorem hookLoop_calls (h : Callees D A V) (ctx : HookContext D) (params : A)
    (ans : List (Option D)) (m : Mem V) :
    callsOf (hookLoop h ctx params ans m).2.2 = expectedCalls h params (chainOf ans) := by
  induction ans generalizing m with
  | nil => rfl
  | cons x rest ih =>
    cases x with
    | none => rfl
    | some d =>
      simp only [hookLoop, chainOf, expectedCalls, List.map_cons, callsOf, callsOf_append, ih,
        loopBody_trace]
      split_ifs <;> simp [callsOf, expectedCalls]

theorem hookLoop_origs (h : Callees D A V) (ctx : HookContext D) (params : A)
    (ans : List (Option D)) (m : Mem V) :
    origsOf (hookLoop h ctx params ans m).2.2 = [] := by
  induction ans generalizing m with
  | nil => rfl
  | cons x rest ih =>
    cases x with
    | none => rfl
    | some d =>
      simp only [hookLoop, origsOf, origsOf_append, ih, loopBody_trace]
      split_ifs <;> simp [origsOf]

theorem hookLoopVoid_rest (h : Callees D A Unit) (params : A)
    (ans : List (Option D)) (c : Cells) :
    (hookLoopVoid h params ans c).2.1 = afterChain ans := by
  induction ans generalizing c with
  | nil => rfl
  | cons x rest ih =>
    cases x with
    | none => rfl
    | some d => simp [hookLoopVoid, afterChain, ih]

theorem hookLoopVoid_status (h : Callees D A Unit) (params : A)
    (ans : List (Option D)) (c : Cells) :
    (hookLoopVoid h params ans c).1.status =
      sup c.status (supList (resultsOf h params (chainOf ans))) := by
  rw [← META_RES.foldl_sup_eq]
  induction ans generalizing c with
  | nil => rfl
  | cons x rest ih =>
    cases x with
    | none => rfl
    | some d => simp [hookLoopVoid, chainOf, resultsOf, ih, loopBodyVoid_status]

theorem hookLoopVoid_calls (h : Callees D A Unit) (params : A)
    (ans : List (Option D)) (c : Cells) :
    callsOf (hookLoopVoid h params ans c).2.2 = expectedCalls h params (chainOf ans) := by
  induction ans generalizing c with
  | nil => rfl
  | cons x rest ih =>
    cases x with
    | none => rfl
    | some d =>
      simp only [hookLoopVoid, chainOf, expectedCalls, List.map_cons, callsOf, callsOf_append,
        ih, loopBodyVoid_trace]
      simp only [List.singleton_append, List.cons_append, List.nil_append, callsOf,
        List.cons.injEq, Prod.mk.injEq, true_and]
      exact ⟨rfl, ih _⟩

theorem hookLoopVoid_origs (h : Callees D A Unit) (params : A)
    (ans : List (Option D)) (c : Cells) :
    origsOf (hookLoopVoid h params ans c).2.2 = [] := by
  induction ans generalizing c with
  | nil => rfl
  | cons x rest ih =>
    cases x with
    | none => rfl
    | some d =>
      simp [hookLoopVoid, origsOf, origsOf_append, ih, loopBodyVoid_trace]

theorem sup_ignored (a : META_RES) : sup MRES_IGNORED a = a := by
  apply META_RES.toNat_inj
  rw [META_RES.toNat_sup]
  simp [META_RES.toNat]

end logs

/-! ## The phases of the non-void trampoline -/

section phases

variable {D A V : Type}

@[simp] theorem preEntry_status (junk : Mem V) : (preEntry junk).status = MRES_IGNORED := rfl

@[simp] theorem postEntry_status (h : Callees D A V) (ctx : HookContext D) (junk : Mem V)
    (params : A) :
    (postEntry h ctx junk params).status = (decision h ctx junk params).1.status := rfl

@[simp] theorem preEntryVoid_status (junk : Cells) :
    (preEntryVoid junk).status = MRES_IGNORED := rfl

@[simp] theorem postEntryVoid_status (h : Callees D A Unit) (ctx : HookContext D)
    (junk : Cells) (params : A) :
    (postEntryVoid h ctx junk params).status = (prePassVoid h ctx junk params).1.status := rfl

theorem prePass_status (h : Callees D A V) (ctx : HookContext D) (junk : Mem V) (params : A) :
    (prePass h ctx junk params).1.status = supList (resultsOf h params ctx.preChain) := by
  simp [prePass, hookLoop_status, sup_ignored, HookContext.preChain]

theorem prePass_rest (h : Callees D A V) (ctx : HookContext D) (junk : Mem V) (params : A) :
    (prePass h ctx junk params).2.1 = afterChain ctx.answers := by
  simp [prePass, hookLoop_rest]

theorem origStep_status (h : Callees D A V) (ctx : HookContext D) (params : A) (m : Mem V) :
    (origStep h ctx params m).1.status = m.status := by
  unfold origStep
  split_ifs <;> rfl

theorem origStep_trace (h : Callees D A V) (ctx : HookContext D) (params : A) (m : Mem V) :
    (origStep h ctx params m).2 =
      if m.status ≠ MRES_SUPERCEDE then
        if ctx.ShouldCallOrig then [.ShouldCallOrig true, .Orig params]
        else [.ShouldCallOrig false]
      else [] := by
  unfold origStep
  split_ifs <;> rfl

theorem decision_status (h : Callees D A V) (ctx : HookContext D) (junk : Mem V) (params : A) :
    (decision h ctx junk params).1.status = supList (resultsOf h params ctx.preChain) := by
  simp [decision, origStep_status, prePass_status]

theorem decision_rest (h : Callees D A V) (ctx : HookContext D) (junk : Mem V) (params : A) :
    (decision h ctx junk params).2.1 = afterChain ctx.answers := by
  simp [decision, prePass_rest]

theorem postPass_status (h : Callees D A V) (ctx : HookContext D) (junk : Mem V) (params : A) :
    (postPass h ctx junk params).1.status =
      supList (resultsOf h params (ctx.preChain ++ ctx.postChain)) := by
  simp [postPass, hookLoop_status, decision_status, decision_rest, resultsOf,
    META_RES.supList_append, HookContext.postChain]

theorem Func_mem (h : Callees D A V) (ctx : HookContext D) (junk : Mem V) (params : A) :
    (Func h ctx junk params).mem = (postPass h ctx junk params).1 := by
  unfold Func
  simp only []
  split_ifs <;> rfl

theorem Func_ret (h : Callees D A V) (ctx : HookContext D) (junk : Mem V) (params : A) :
    (Func h ctx junk params).ret =
      (postPass h ctx junk params).1.read
        (if MRES_OVERRIDE ≤ (postPass h ctx junk params).1.status then ctx.GetOverrideRetPtr
          else ctx.GetOrigRetPtr) := by
  unfold Func
  simp only [ge_iff_le]
  split_ifs <;> rfl

theorem Func_trace (h : Callees D A V) (ctx : HookContext D) (junk : Mem V) (params : A) :
    (Func h ctx junk params).trace =
      (postPass h ctx junk params).2.2 ++
        [if MRES_OVERRIDE ≤ (postPass h ctx junk params).1.status then .GetOverrideRetPtr
          else .GetOrigRetPtr, .EndContext ctx.addr] := by
  unfold Func
  simp only [ge_iff_le]
  split_ifs <;> rfl

end phases

/-! ## Result selection -/

/-- C1. Result selection of the non-void trampoline: the running status after
the post pass is the maximum of the per-iteration results of all delegates of
both passes; when it is `MRES_OVERRIDE` or higher the caller receives the
contents of the cell `GetOverrideRetPtr()` designates, otherwise the contents
of the cell `GetOrigRetPtr()` designates, and the matching getter is the last
host call before `EndContext`. -/
theorem Func_result_selection {D A V : Type} (h : Callees D A V) (ctx : HookContext D)
    (junk : Mem V) (params : A) :
    (Func h ctx junk params).mem = (postPass h ctx junk params).1 ∧
    (Func h ctx junk params).mem.status =
      supList (resultsOf h params (ctx.preChain ++ ctx.postChain)) ∧
    (Func h ctx junk params).ret =
      (Func h ctx junk params).mem.read
        (if MRES_OVERRIDE ≤ (Func h ctx junk params).mem.status then ctx.GetOverrideRetPtr
          else ctx.GetOrigRetPtr) ∧
    (Func h ctx junk params).trace =
      (postPass h ctx junk params).2.2 ++
        [if MRES_OVERRIDE ≤ (Func h ctx junk params).mem.status then Event.GetOverrideRetPtr
          else Event.GetOrigRetPtr, Event.EndContext ctx.addr] := by
  refine ⟨Func_mem h ctx junk params, ?_, ?_, ?_⟩
  · rw [Func_mem, postPass_status]
  · rw [Func_mem, Func_ret]
  · rw [Func_mem, Func_trace]

/-! ## The decision about the original -/

section decisionLemmas

variable {D A V : Type}

theorem prePass_calls (h : Callees D A V) (ctx : HookContext D) (junk : Mem V) (params : A) :
    callsOf (prePass h ctx junk params).2.2 = expectedCalls h params ctx.preChain := by
  simp [prePass, callsOf, hookLoop_calls, HookContext.preChain]

theorem prePass_origs (h : Callees D A V) (ctx : HookContext D) (junk : Mem V) (params : A) :
    origsOf (prePass h ctx junk params).2.2 = [] := by
  simp [prePass, origsOf, hookLoop_origs]

theorem prePassVoid_status (h : Callees D A Unit) (ctx : HookContext D) (junk : Cells)
    (params : A) :
    (prePassVoid h ctx junk params).1.status = supList (resultsOf h params ctx.preChain) := by
  simp [prePassVoid, hookLoopVoid_status, sup_ignored, HookContext.preChain]

theorem prePassVoid_rest (h : Callees D A Unit) (ctx : HookContext D) (junk : Cells)
    (params : A) :
    (prePassVoid h ctx junk params).2.1 = afterChain ctx.answers := by
  simp [prePassVoid, hookLoopVoid_rest]

theorem prePassVoid_calls (h : Callees D A Unit) (ctx : HookContext D) (junk : Cells)
    (params : A) :
    callsOf (prePassVoid h ctx junk params).2.2 = expectedCalls h params ctx.preChain := by
  simp [prePassVoid, callsOf, hookLoopVoid_calls, HookContext.preChain]

theorem prePassVoid_origs (h : Callees D A Unit) (ctx : HookContext D) (junk : Cells)
    (params : A) :
    origsOf (prePassVoid h ctx junk params).2.2 = [] := by
  simp [prePassVoid, origsOf, hookLoopVoid_origs]

/-- The part of the log of the non-void `Func` that follows the decision: the
post loop, the choice of `repPtr` and `EndContext`. -/
theorem Func_trace_split (h : Callees D A V) (ctx : HookContext D) (junk : Mem V)
    (params : A) :
    ∃ t2 : List (Event D A),
      (Func h ctx junk params).trace =
        (prePass h ctx junk params).2.2 ++
          (origStep h ctx params (prePass h ctx junk params).1).2 ++ t2 ∧
      callsOf t2 = expectedCalls h params ctx.postChain ∧ origsOf t2 = [] := by
  refine ⟨(hookLoop h ctx params (decision h ctx junk params).2.1
      (postEntry h ctx junk params)).2.2 ++
      [if MRES_OVERRIDE ≤ (postPass h ctx junk params).1.status then .GetOverrideRetPtr
        else .GetOrigRetPtr, .EndContext ctx.addr], ?_, ?_, ?_⟩
  · rw [Func_trace]
    simp [postPass, decision]
  · rw [callsOf_append, hookLoop_calls, decision_rest]
    split_ifs <;> simp [callsOf, HookContext.postChain]
  · rw [origsOf_append, hookLoop_origs]
    split_ifs <;> simp [origsOf]

/-- The part of the log of the void `Func` that follows the decision: the
post loop and `EndContext`. -/
theorem FuncVoid_trace_split (h : Callees D A Unit) (ctx : HookContext D) (junk : Cells)
    (params : A) :
    ∃ t2 : List (Event D A),
      (FuncVoid h ctx junk params).2 =
        (prePassVoid h ctx junk params).2.2 ++
          origStepVoid ctx params (prePassVoid h ctx junk params).1 ++ t2 ∧
      callsOf t2 = expectedCalls h params ctx.postChain ∧ origsOf t2 = [] := by
  refine ⟨(hookLoopVoid h params (prePassVoid h ctx junk params).2.1
      (postEntryVoid h ctx junk params)).2.2 ++
      [.EndContext ctx.addr], ?_, ?_, ?_⟩
  · simp [FuncVoid]
  · rw [callsOf_append, hookLoopVoid_calls, prePassVoid_rest]
    simp [callsOf, HookContext.postChain]
  · rw [origsOf_append, hookLoopVoid_origs]
    simp [origsOf]

end decisionLemmas

section decisionShape

variable {D A V : Type}

theorem decisionQuery_calls (ctx : HookContext D) (s : META_RES) :
    callsOf (decisionQuery ctx s : List (Event D A)) = [] := by
  unfold decisionQuery
  split_ifs <;> rfl

theorem decisionQuery_origs (ctx : HookContext D) (s : META_RES) :
    origsOf (decisionQuery ctx s : List (Event D A)) = [] := by
  unfold decisionQuery
  split_ifs <;> rfl

theorem origStep_trace_eq (h : Callees D A V) (ctx : HookContext D) (params : A) (m : Mem V) :
    (origStep h ctx params m).2 =
      decisionQuery ctx m.status ++
        (if m.status ≠ MRES_SUPERCEDE ∧ ctx.ShouldCallOrig = true then [Event.Orig params]
          else []) := by
  unfold origStep decisionQuery
  by_cases hs : m.status = MRES_SUPERCEDE <;> cases hc : ctx.ShouldCallOrig <;> simp [hs]

theorem origStepVoid_eq (ctx : HookContext D) (params : A) (c : Cells) :
    origStepVoid ctx params c =
      decisionQuery ctx c.status ++
        (if c.status ≠ MRES_SUPERCEDE ∧ ctx.ShouldCallOrig = true then [Event.Orig params]
          else []) := by
  unfold origStepVoid decisionQuery
  by_cases hs : c.status = MRES_SUPERCEDE <;> cases hc : ctx.ShouldCallOrig <;> simp [hs]

theorem supList_eq_supercede {rs : List META_RES} (hmem : MRES_SUPERCEDE ∈ rs) :
    supList rs = MRES_SUPERCEDE := by
  apply META_RES.toNat_inj
  have hle := META_RES.le_supList_of_mem hmem
  rw [META_RES.le_iff] at hle
  have hub := META_RES.toNat_le_three (supList rs)
  have h3 : MRES_SUPERCEDE.toNat = 3 := rfl
  omega

theorem origsOf_orig_part (c : Prop) [Decidable c] (params : A) :
    origsOf (if c then [(Event.Orig params : Event D A)] else []) =
      if c then [params] else [] := by
  split_ifs <;> rfl

theorem callsOf_orig_part (c : Prop) [Decidable c] (params : A) :
    callsOf (if c then [(Event.Orig params : Event D A)] else []) = [] := by
  split_ifs <;> rfl

end decisionShape

/-- C2. Original-call decision of both trampolines.  The log of a dispatch is
the pre part (exactly the calls of the pre-pass delegates, no original), then
one invocation of the original with the caller's arguments if and only if the
status after the pre pass is not `MRES_SUPERCEDE` and `ShouldCallOrig()` is
true, then the post part (exactly the calls of the post-pass delegates, no
original).  The original is therefore invoked once or not at all, and never
when a pre-pass delegate reported `MRES_SUPERCEDE`. -/
theorem Func_original_call_decision {D A V : Type} (h : Callees D A V)
    (hv : Callees D A Unit) (ctx : HookContext D) (junk : Mem V) (cjunk : Cells)
    (params : A) :
    ((∃ t1 t2 : List (Event D A),
        (Func h ctx junk params).trace =
          t1 ++ (if (prePass h ctx junk params).1.status ≠ MRES_SUPERCEDE ∧
                    ctx.ShouldCallOrig = true then [Event.Orig params] else []) ++ t2 ∧
        callsOf t1 = expectedCalls h params ctx.preChain ∧ origsOf t1 = [] ∧
        callsOf t2 = expectedCalls h params ctx.postChain ∧ origsOf t2 = []) ∧
      origsOf (Func h ctx junk params).trace =
        (if (prePass h ctx junk params).1.status ≠ MRES_SUPERCEDE ∧
            ctx.ShouldCallOrig = true then [params] else []) ∧
      (MRES_SUPERCEDE ∈ resultsOf h params ctx.preChain →
        origsOf (Func h ctx junk params).trace = [])) ∧
    ((∃ t1 t2 : List (Event D A),
        (FuncVoid hv ctx cjunk params).2 =
          t1 ++ (if (prePassVoid hv ctx cjunk params).1.status ≠ MRES_SUPERCEDE ∧
                    ctx.ShouldCallOrig = true then [Event.Orig params] else []) ++ t2 ∧
        callsOf t1 = expectedCalls hv params ctx.preChain ∧ origsOf t1 = [] ∧
        callsOf t2 = expectedCalls hv params ctx.postChain ∧ origsOf t2 = []) ∧
      origsOf (FuncVoid hv ctx cjunk params).2 =
        (if (prePassVoid hv ctx cjunk params).1.status ≠ MRES_SUPERCEDE ∧
            ctx.ShouldCallOrig = true then [params] else []) ∧
      (MRES_SUPERCEDE ∈ resultsOf hv params ctx.preChain →
        origsOf (FuncVoid hv ctx cjunk params).2 = [])) := by
  obtain ⟨t2, htr, hc2, ho2⟩ := Func_trace_split h ctx junk params
  obtain ⟨u2, hutr, huc2, huo2⟩ := FuncVoid_trace_split hv ctx cjunk params
  have horigs : origsOf (Func h ctx junk params).trace =
      (if (prePass h ctx junk params).1.status ≠ MRES_SUPERCEDE ∧
          ctx.ShouldCallOrig = true then [params] else []) := by
    rw [htr, origStep_trace_eq]
    simp only [origsOf_append, prePass_origs, decisionQuery_origs, ho2, origsOf_orig_part,
      List.nil_append, List.append_nil]
  have hvorigs : origsOf (FuncVoid hv ctx cjunk params).2 =
      (if (prePassVoid hv ctx cjunk params).1.status ≠ MRES_SUPERCEDE ∧
          ctx.ShouldCallOrig = true then [params] else []) := by
    rw [hutr, origStepVoid_eq]
    simp only [origsOf_append, prePassVoid_origs, decisionQuery_origs, huo2, origsOf_orig_part,
      List.nil_append, List.append_nil]
  refine ⟨⟨⟨(prePass h ctx junk params).2.2 ++
      decisionQuery ctx (prePass h ctx junk params).1.status, t2, ?_, ?_, ?_, hc2, ho2⟩,
      horigs, ?_⟩, ⟨⟨(prePassVoid hv ctx cjunk params).2.2 ++
      decisionQuery ctx (prePassVoid hv ctx cjunk params).1.status, u2, ?_, ?_, ?_, huc2, huo2⟩,
      hvorigs, ?_⟩⟩
  · rw [htr, origStep_trace_eq]
    simp only [List.append_assoc]
  · rw [callsOf_append, prePass_calls, decisionQuery_calls, List.append_nil]
  · rw [origsOf_append, prePass_origs, decisionQuery_origs, List.append_nil]
  · intro hmem
    rw [horigs, prePass_status, supList_eq_supercede hmem]
    simp
  · rw [hutr, origStepVoid_eq]
    simp only [List.append_assoc]
  · rw [callsOf_append, prePassVoid_calls, decisionQuery_calls, List.append_nil]
  · rw [origsOf_append, prePassVoid_origs, decisionQuery_origs, List.append_nil]
  · intro hmem
    rw [hvorigs, prePassVoid_status, supList_eq_supercede hmem]
    simp

/-! ## The override storage -/

section overrideStorage

variable {D A V : Type}

theorem lastOverride_cons_getD (h : Callees D A V) (params : A) (d : D) (ds : List D) (v : V) :
    (lastOverride h params (d :: ds)).getD v =
      (lastOverride h params ds).getD
        (if MRES_OVERRIDE ≤ resultOf h params d then (h.Call d params).2 else v) := by
  unfold lastOverride
  by_cases hd : MRES_OVERRIDE ≤ resultOf h params d
  · rw [List.filter_cons_of_pos (by simpa using hd), List.getLast?_cons, if_pos hd]
    cases (List.filter (fun d => decide (MRES_OVERRIDE ≤ resultOf h params d)) ds).getLast? <;>
      simp
  · rw [List.filter_cons_of_neg (by simpa using hd), if_neg hd]

theorem lastOverride_append_getD (h : Callees D A V) (params : A) (ds es : List D) (v : V) :
    (lastOverride h params (ds ++ es)).getD v =
      (lastOverride h params es).getD ((lastOverride h params ds).getD v) := by
  induction ds generalizing v with
  | nil => simp [lastOverride]
  | cons d ds ih =>
    rw [List.cons_append, lastOverride_cons_getD, ih, lastOverride_cons_getD]

theorem lastOverride_isSome (h : Callees D A V) (params : A) (ds : List D)
    (hsup : MRES_OVERRIDE ≤ supList (resultsOf h params ds)) :
    ∃ v, lastOverride h params ds = some v := by
  rcases META_RES.supList_mem_or (resultsOf h params ds) with h0 | hmem
  · rw [h0] at hsup
    exact absurd hsup (by decide)
  · obtain ⟨d, hd, hres⟩ := List.mem_map.mp hmem
    have hne : List.filter (fun d => decide (MRES_OVERRIDE ≤ resultOf h params d)) ds ≠ [] := by
      intro hnil
      have hin : d ∈ List.filter (fun d => decide (MRES_OVERRIDE ≤ resultOf h params d)) ds := by
        rw [List.mem_filter]
        refine ⟨hd, ?_⟩
        rw [hres]
        simpa using hsup
      rw [hnil] at hin
      simp at hin
    unfold lastOverride
    cases hl : (List.filter (fun d => decide (MRES_OVERRIDE ≤ resultOf h params d)) ds).getLast? with
    | none => exact absurd (List.getLast?_eq_none_iff.mp hl) hne
    | some x => exact ⟨_, rfl⟩

theorem loopBody_override_ret (h : Callees D A V) (ctx : HookContext D) (params : A) (d : D)
    (m : Mem V) (hptr : ctx.GetOverrideRetPtr = RetPtr.override_ret) :
    (loopBody h ctx params d m).1.override_ret =
      if MRES_OVERRIDE ≤ resultOf h params d then (h.Call d params).2 else m.override_ret := by
  unfold loopBody resultOf
  simp only [gt_iff_lt, ge_iff_le, hptr]
  split_ifs <;> simp [Mem.write]

theorem hookLoop_override_ret (h : Callees D A V) (ctx : HookContext D) (params : A)
    (ans : List (Option D)) (m : Mem V) (hptr : ctx.GetOverrideRetPtr = RetPtr.override_ret) :
    (hookLoop h ctx params ans m).1.override_ret =
      (lastOverride h params (chainOf ans)).getD m.override_ret := by
  induction ans generalizing m with
  | nil => simp [hookLoop, chainOf, lastOverride]
  | cons x rest ih =>
    cases x with
    | none => simp [hookLoop, chainOf, lastOverride]
    | some d =>
      simp only [hookLoop, chainOf]
      rw [ih, lastOverride_cons_getD, loopBody_override_ret h ctx params d m hptr]

theorem origStep_override_ret (h : Callees D A V) (ctx : HookContext D) (params : A)
    (m : Mem V) : (origStep h ctx params m).1.override_ret = m.override_ret := by
  unfold origStep
  split_ifs <;> rfl

theorem postPass_override_ret (h : Callees D A V) (ctx : HookContext D) (junk : Mem V)
    (params : A) (hptr : ctx.GetOverrideRetPtr = RetPtr.override_ret) :
    (postPass h ctx junk params).1.override_ret =
      (lastOverride h params (ctx.preChain ++ ctx.postChain)).getD junk.override_ret := by
  have hpost : (postPass h ctx junk params).1 =
      (hookLoop h ctx params (decision h ctx junk params).2.1
        (postEntry h ctx junk params)).1 := rfl
  have hentry : (postEntry h ctx junk params).override_ret =
      (prePass h ctx junk params).1.override_ret :=
    origStep_override_ret h ctx params _
  have hpre : (prePass h ctx junk params).1.override_ret =
      (lastOverride h params ctx.preChain).getD junk.override_ret :=
    hookLoop_override_ret h ctx params ctx.answers (preEntry junk) hptr
  rw [hpost, hookLoop_override_ret h ctx params _ _ hptr, decision_rest, hentry, hpre,
    lastOverride_append_getD]
  rfl

end overrideStorage

/-- C3. Override wins, last writer wins.  When `GetOverrideRetPtr()` designates
the `override_ret` cell handed to `SetupHookLoop` and the final status is
`MRES_OVERRIDE` or higher, there is a last delegate, in visiting order over
the pre pass followed by the post pass, whose per-iteration result was
`MRES_OVERRIDE` or higher, and the caller receives the value that delegate
returned; the value does not depend on what the original returns. -/
theorem Func_override_last_writer {D A V : Type} (h : Callees D A V) (ctx : HookContext D)
    (junk : Mem V) (params : A)
    (hptr : ctx.GetOverrideRetPtr = RetPtr.override_ret)
    (hst : MRES_OVERRIDE ≤ (Func h ctx junk params).mem.status) :
    lastOverride h params (ctx.preChain ++ ctx.postChain) = some (Func h ctx junk params).ret ∧
    ∀ orig : A → V,
      (Func { h with Orig := orig } ctx junk params).ret = (Func h ctx junk params).ret := by
  rw [Func_mem, postPass_status] at hst
  obtain ⟨v, hv⟩ := lastOverride_isSome h params _ hst
  have hret : ∀ g : Callees D A V, g.Call = h.Call → (Func g ctx junk params).ret = v := by
    intro g hg
    have hres : resultsOf g params = resultsOf h params := by
      funext ds
      simp [resultsOf, resultOf, hg]
    have hlast : lastOverride g params = lastOverride h params := by
      funext ds
      simp [lastOverride, resultOf, hg]
    rw [Func_ret, postPass_status, hres, if_pos hst, hptr]
    show (postPass g ctx junk params).1.override_ret = v
    rw [postPass_override_ret g ctx junk params hptr, hlast, hv]
    rfl
  refine ⟨?_, ?_⟩
  · rw [hv, hret h rfl]
  · intro orig
    rw [hret h rfl, hret { h with Orig := orig } rfl]

/-! ## The running status -/

section runningStatus

variable {D A V : Type}

theorem resultsIn_append (t u : List (Event D A)) :
    resultsIn (t ++ u) = resultsIn t ++ resultsIn u := by
  simp [resultsIn, callsOf_append]

theorem snapshotsAgree_append (acc : META_RES) (t u : List (Event D A)) :
    snapshotsAgree acc (t ++ u) ↔
      snapshotsAgree acc t ∧ snapshotsAgree ((resultsIn t).foldl sup acc) u := by
  induction t generalizing acc with
  | nil => simp [snapshotsAgree, resultsIn, callsOf]
  | cons e t ih =>
    cases e <;> simp [snapshotsAgree, resultsIn, callsOf, ih, and_assoc]

theorem snapshotsAgree_split {acc : META_RES} {tr t1 t2 : List (Event D A)} {s p c : META_RES}
    (hok : snapshotsAgree acc tr) (hsplit : tr = t1 ++ Event.Iter s p c :: t2) :
    s = (resultsIn t1).foldl sup acc := by
  rw [hsplit, snapshotsAgree_append] at hok
  exact hok.2.1

theorem le_sup_left (a b : META_RES) : a ≤ sup a b := by
  rw [META_RES.le_iff, META_RES.toNat_sup]
  omega

theorem META_RES.le_trans {a b c : META_RES} (hab : a ≤ b) (hbc : b ≤ c) : a ≤ c := by
  rw [META_RES.le_iff] at *
  omega

theorem snapshotsAgree_sorted {acc : META_RES} {tr : List (Event D A)}
    (hok : snapshotsAgree acc tr) :
    (statusesOf tr).Pairwise (fun a b => a ≤ b) ∧ ∀ s ∈ statusesOf tr, acc ≤ s := by
  induction tr generalizing acc with
  | nil => simp [statusesOf]
  | cons e t ih =>
    cases e with
    | Call d a r =>
      have hrec := @ih (sup acc r) hok
      exact ⟨hrec.1, fun s hs => META_RES.le_trans (le_sup_left acc r) (hrec.2 s hs)⟩
    | Iter s p c =>
      obtain ⟨hs, hrest⟩ := hok
      have hrec := @ih acc hrest
      subst hs
      refine ⟨List.pairwise_cons.mpr ⟨hrec.2, hrec.1⟩, ?_⟩
      intro x hx
      rcases List.mem_cons.mp hx with hx | hx
      · rw [hx]; exact Nat.le_refl _
      · exact hrec.2 x hx
    | SetupHookLoop b p => exact @ih acc hok
    | GetNext x => exact @ih acc hok
    | GetOverrideRetPtr => exact @ih acc hok
    | ShouldCallOrig b => exact @ih acc hok
    | Orig a => exact @ih acc hok
    | GetOrigRetPtr => exact @ih acc hok
    | EndContext p => exact @ih acc hok

theorem hookLoop_some (h : Callees D A V) (ctx : HookContext D) (params : A) (d : D)
    (rest : List (Option D)) (m : Mem V) :
    (hookLoop h ctx params (some d :: rest) m).2.2 =
      Event.GetNext (some d) :: ((loopBody h ctx params d m).2 ++
        (hookLoop h ctx params rest (loopBody h ctx params d m).1).2.2) := rfl

theorem hookLoopVoid_some (h : Callees D A Unit) (params : A) (d : D)
    (rest : List (Option D)) (c : Cells) :
    (hookLoopVoid h params (some d :: rest) c).2.2 =
      Event.GetNext (some d) :: ((loopBodyVoid h params d c).2 ++
        (hookLoopVoid h params rest (loopBodyVoid h params d c).1).2.2) := rfl

theorem hookLoop_snapshots (h : Callees D A V) (ctx : HookContext D) (params : A)
    (ans : List (Option D)) (m : Mem V) :
    snapshotsAgree m.status (hookLoop h ctx params ans m).2.2 := by
  induction ans generalizing m with
  | nil => simp [hookLoop, snapshotsAgree]
  | cons x rest ih =>
    cases x with
    | none => simp [hookLoop, snapshotsAgree]
    | some d =>
      have hrec := ih (loopBody h ctx params d m).1
      rw [loopBody_status] at hrec
      rw [hookLoop_some, loopBody_trace]
      split_ifs <;> simpa [snapshotsAgree] using hrec

theorem hookLoopVoid_snapshots (h : Callees D A Unit) (params : A)
    (ans : List (Option D)) (c : Cells) :
    snapshotsAgree c.status (hookLoopVoid h params ans c).2.2 := by
  induction ans generalizing c with
  | nil => simp [hookLoopVoid, snapshotsAgree]
  | cons x rest ih =>
    cases x with
    | none => simp [hookLoopVoid, snapshotsAgree]
    | some d =>
      have hrec := ih (loopBodyVoid h params d c).1
      rw [loopBodyVoid_status] at hrec
      rw [hookLoopVoid_some, loopBodyVoid_trace]
      simpa [snapshotsAgree] using hrec

theorem hookLoop_resultsIn (h : Callees D A V) (ctx : HookContext D) (params : A)
    (ans : List (Option D)) (m : Mem V) :
    resultsIn (hookLoop h ctx params ans m).2.2 = resultsOf h params (chainOf ans) := by
  simp [resultsIn, hookLoop_calls, expectedCalls, resultsOf]

theorem hookLoopVoid_resultsIn (h : Callees D A Unit) (params : A)
    (ans : List (Option D)) (c : Cells) :
    resultsIn (hookLoopVoid h params ans c).2.2 = resultsOf h params (chainOf ans) := by
  simp [resultsIn, hookLoopVoid_calls, expectedCalls, resultsOf]

theorem origStep_snapshots (h : Callees D A V) (ctx : HookContext D) (params : A) (m : Mem V)
    (acc : META_RES) : snapshotsAgree acc (origStep h ctx params m).2 := by
  rw [origStep_trace]
  split_ifs <;> simp [snapshotsAgree]

theorem origStep_resultsIn (h : Callees D A V) (ctx : HookContext D) (params : A) (m : Mem V) :
    resultsIn (origStep h ctx params m).2 = [] := by
  rw [origStep_trace]
  split_ifs <;> rfl

theorem origStepVoid_snapshots (ctx : HookContext D) (params : A) (c : Cells)
    (acc : META_RES) : snapshotsAgree acc (origStepVoid ctx params c : List (Event D A)) := by
  unfold origStepVoid
  split_ifs <;> simp [snapshotsAgree]

theorem origStepVoid_resultsIn (ctx : HookContext D) (params : A) (c : Cells) :
    resultsIn (origStepVoid ctx params c : List (Event D A)) = [] := by
  unfold origStepVoid
  split_ifs <;> rfl

theorem prePass_resultsIn (h : Callees D A V) (ctx : HookContext D) (junk : Mem V)
    (params : A) :
    resultsIn (prePass h ctx junk params).2.2 = resultsOf h params ctx.preChain := by
  simp [resultsIn, prePass_calls, expectedCalls, resultsOf]

theorem prePass_snapshots (h : Callees D A V) (ctx : HookContext D) (junk : Mem V)
    (params : A) : snapshotsAgree MRES_IGNORED (prePass h ctx junk params).2.2 := by
  show snapshotsAgree MRES_IGNORED (Event.SetupHookLoop true ctx.addr :: _)
  exact hookLoop_snapshots h ctx params ctx.answers
    (preEntry junk)

theorem decision_trace (h : Callees D A V) (ctx : HookContext D) (junk : Mem V) (params : A) :
    (decision h ctx junk params).2.2 =
      (prePass h ctx junk params).2.2 ++
        (origStep h ctx params (prePass h ctx junk params).1).2 := rfl

theorem postPass_trace (h : Callees D A V) (ctx : HookContext D) (junk : Mem V) (params : A) :
    (postPass h ctx junk params).2.2 =
      (decision h ctx junk params).2.2 ++
        (hookLoop h ctx params (decision h ctx junk params).2.1
          (postEntry h ctx junk params)).2.2 := rfl

theorem decision_resultsIn (h : Callees D A V) (ctx : HookContext D) (junk : Mem V)
    (params : A) :
    resultsIn (decision h ctx junk params).2.2 = resultsOf h params ctx.preChain := by
  rw [decision_trace, resultsIn_append, prePass_resultsIn, origStep_resultsIn, List.append_nil]

theorem decision_snapshots (h : Callees D A V) (ctx : HookContext D) (junk : Mem V)
    (params : A) : snapshotsAgree MRES_IGNORED (decision h ctx junk params).2.2 := by
  rw [decision_trace, snapshotsAgree_append]
  exact ⟨prePass_snapshots h ctx junk params, origStep_snapshots h ctx params _ _⟩

theorem postPass_snapshots (h : Callees D A V) (ctx : HookContext D) (junk : Mem V)
    (params : A) : snapshotsAgree MRES_IGNORED (postPass h ctx junk params).2.2 := by
  rw [postPass_trace, snapshotsAgree_append]
  refine ⟨decision_snapshots h ctx junk params, ?_⟩
  rw [decision_resultsIn, META_RES.foldl_sup_eq, sup_ignored, ← decision_status h ctx junk params]
  exact hookLoop_snapshots h ctx params (decision h ctx junk params).2.1
    (postEntry h ctx junk params)

theorem Func_snapshots (h : Callees D A V) (ctx : HookContext D) (junk : Mem V) (params : A) :
    snapshotsAgree MRES_IGNORED (Func h ctx junk params).trace := by
  rw [Func_trace, snapshotsAgree_append]
  refine ⟨postPass_snapshots h ctx junk params, ?_⟩
  split_ifs <;> simp [snapshotsAgree]

theorem prePassVoid_resultsIn (h : Callees D A Unit) (ctx : HookContext D) (junk : Cells)
    (params : A) :
    resultsIn (prePassVoid h ctx junk params).2.2 = resultsOf h params ctx.preChain := by
  simp [resultsIn, prePassVoid_calls, expectedCalls, resultsOf]

theorem prePassVoid_snapshots (h : Callees D A Unit) (ctx : HookContext D) (junk : Cells)
    (params : A) : snapshotsAgree MRES_IGNORED (prePassVoid h ctx junk params).2.2 := by
  show snapshotsAgree MRES_IGNORED (Event.SetupHookLoop false ctx.addr :: _)
  exact hookLoopVoid_snapshots h params ctx.answers
    (preEntryVoid junk)

theorem FuncVoid_trace (h : Callees D A Unit) (ctx : HookContext D) (junk : Cells)
    (params : A) :
    (FuncVoid h ctx junk params).2 =
      (prePassVoid h ctx junk params).2.2 ++
        origStepVoid ctx params (prePassVoid h ctx junk params).1 ++
        (hookLoopVoid h params (prePassVoid h ctx junk params).2.1
          (postEntryVoid h ctx junk params)).2.2 ++
        [Event.EndContext ctx.addr] := rfl

theorem FuncVoid_status (h : Callees D A Unit) (ctx : HookContext D) (junk : Cells)
    (params : A) :
    (FuncVoid h ctx junk params).1.status =
      supList (resultsOf h params (ctx.preChain ++ ctx.postChain)) := by
  show (hookLoopVoid h params (prePassVoid h ctx junk params).2.1
    (postEntryVoid h ctx junk params)).1.status = _
  rw [hookLoopVoid_status, prePassVoid_rest]
  show sup (prePassVoid h ctx junk params).1.status _ = _
  rw [prePassVoid_status]
  simp [resultsOf, META_RES.supList_append, HookContext.postChain]

theorem FuncVoid_snapshots (h : Callees D A Unit) (ctx : HookContext D) (junk : Cells)
    (params : A) : snapshotsAgree MRES_IGNORED (FuncVoid h ctx junk params).2 := by
  rw [FuncVoid_trace, snapshotsAgree_append, snapshotsAgree_append, snapshotsAgree_append]
  refine ⟨⟨⟨prePassVoid_snapshots h ctx junk params, origStepVoid_snapshots ctx params _ _⟩,
    ?_⟩, by simp [snapshotsAgree]⟩
  rw [resultsIn_append, prePassVoid_resultsIn, origStepVoid_resultsIn, List.append_nil,
    META_RES.foldl_sup_eq, sup_ignored, ← prePassVoid_status h ctx junk params]
  exact hookLoopVoid_snapshots h params (prePassVoid h ctx junk params).2.1
    (postEntryVoid h ctx junk params)

end runningStatus

/-- C4. Status monotonicity, for both trampolines.  At the end of every loop
body the running status equals the maximum of `MRES_IGNORED` and the
per-iteration results of all delegates called so far in the dispatch; the
recorded values never decrease; the status after the pre pass is the maximum
over the pre-pass delegates and is the status the post pass starts from; the
final status is the maximum over both passes. -/
theorem Func_status_is_running_maximum {D A V : Type} (h : Callees D A V)
    (hv : Callees D A Unit) (ctx : HookContext D) (junk : Mem V) (cjunk : Cells)
    (params : A) :
    ((∀ (t1 t2 : List (Event D A)) (s p c : META_RES),
        (Func h ctx junk params).trace = t1 ++ Event.Iter s p c :: t2 →
          s = supList (resultsIn t1)) ∧
      (statusesOf (Func h ctx junk params).trace).Pairwise (fun a b => a ≤ b) ∧
      (prePass h ctx junk params).1.status = supList (resultsOf h params ctx.preChain) ∧
      (decision h ctx junk params).1.status = (prePass h ctx junk params).1.status ∧
      (Func h ctx junk params).mem.status =
        sup (supList (resultsOf h params ctx.preChain))
          (supList (resultsOf h params ctx.postChain)) ∧
      (Func h ctx junk params).mem.status =
        supList (resultsOf h params (ctx.preChain ++ ctx.postChain))) ∧
    ((∀ (t1 t2 : List (Event D A)) (s p c : META_RES),
        (FuncVoid hv ctx cjunk params).2 = t1 ++ Event.Iter s p c :: t2 →
          s = supList (resultsIn t1)) ∧
      (statusesOf (FuncVoid hv ctx cjunk params).2).Pairwise (fun a b => a ≤ b) ∧
      (prePassVoid hv ctx cjunk params).1.status =
        supList (resultsOf hv params ctx.preChain) ∧
      (FuncVoid hv ctx cjunk params).1.status =
        sup (supList (resultsOf hv params ctx.preChain))
          (supList (resultsOf hv params ctx.postChain)) ∧
      (FuncVoid hv ctx cjunk params).1.status =
        supList (resultsOf hv params (ctx.preChain ++ ctx.postChain))) := by
  refine ⟨⟨?_, ?_, prePass_status h ctx junk params, ?_, ?_, ?_⟩,
    ⟨?_, ?_, prePassVoid_status hv ctx cjunk params, ?_, FuncVoid_status hv ctx cjunk params⟩⟩
  · intro t1 t2 s p c hsplit
    exact snapshotsAgree_split (Func_snapshots h ctx junk params) hsplit
  · exact (snapshotsAgree_sorted (Func_snapshots h ctx junk params)).1
  · rw [decision_status, prePass_status]
  · rw [Func_mem, postPass_status]
    simp [resultsOf, META_RES.supList_append]
  · rw [Func_mem, postPass_status]
  · intro t1 t2 s p c hsplit
    exact snapshotsAgree_split (FuncVoid_snapshots hv ctx cjunk params) hsplit
  · exact (snapshotsAgree_sorted (FuncVoid_snapshots hv ctx cjunk params)).1
  · rw [FuncVoid_status]
    simp [resultsOf, META_RES.supList_append]

/-! ## Visiting order -/

section visitingOrder

variable {D A V : Type}

theorem nextsOf_append (t u : List (Event D A)) : nextsOf (t ++ u) = nextsOf t ++ nextsOf u := by
  induction t with
  | nil => rfl
  | cons e t ih => cases e <;> simp [nextsOf, ih]

theorem calledOf_append (t u : List (Event D A)) :
    calledOf (t ++ u) = calledOf t ++ calledOf u := by
  simp [calledOf, callsOf_append]

theorem calledOf_expected (h : Callees D A V) (params : A) (ds : List D)
    (t : List (Event D A)) (ht : callsOf t = expectedCalls h params ds) : calledOf t = ds := by
  rw [calledOf, ht, expectedCalls, List.map_map]
  exact List.map_id ds

theorem loopBody_nexts (h : Callees D A V) (ctx : HookContext D) (params : A) (d : D)
    (m : Mem V) : nextsOf (loopBody h ctx params d m).2 = [] := by
  rw [loopBody_trace]
  split_ifs <;> rfl

theorem loopBodyVoid_nexts (h : Callees D A Unit) (params : A) (d : D) (c : Cells) :
    nextsOf (loopBodyVoid h params d c).2 = [] := by
  rw [loopBodyVoid_trace]
  rfl

theorem hookLoop_nexts (h : Callees D A V) (ctx : HookContext D) (params : A)
    (ds : List D) (rest : List (Option D)) (m : Mem V) :
    nextsOf (hookLoop h ctx params (ds.map some ++ none :: rest) m).2.2 =
      ds.map some ++ [none] := by
  induction ds generalizing m with
  | nil => rfl
  | cons d ds ih =>
    rw [List.map_cons, List.cons_append, hookLoop_some]
    show some d :: nextsOf ((loopBody h ctx params d m).2 ++ _) = _
    rw [nextsOf_append, loopBody_nexts, List.nil_append, ih, List.cons_append]

theorem hookLoopVoid_nexts (h : Callees D A Unit) (params : A)
    (ds : List D) (rest : List (Option D)) (c : Cells) :
    nextsOf (hookLoopVoid h params (ds.map some ++ none :: rest) c).2.2 =
      ds.map some ++ [none] := by
  induction ds generalizing c with
  | nil => rfl
  | cons d ds ih =>
    rw [List.map_cons, List.cons_append, hookLoopVoid_some]
    show some d :: nextsOf ((loopBodyVoid h params d c).2 ++ _) = _
    rw [nextsOf_append, loopBodyVoid_nexts, List.nil_append, ih, List.cons_append]

theorem origStep_nexts (h : Callees D A V) (ctx : HookContext D) (params : A) (m : Mem V) :
    nextsOf (origStep h ctx params m).2 = [] := by
  rw [origStep_trace]
  split_ifs <;> rfl

theorem origStep_calls (h : Callees D A V) (ctx : HookContext D) (params : A) (m : Mem V) :
    callsOf (origStep h ctx params m).2 = [] := by
  rw [origStep_trace]
  split_ifs <;> rfl

theorem origStep_origs (h : Callees D A V) (ctx : HookContext D) (params : A) (m : Mem V) :
    origsOf (origStep h ctx params m).2 = [] ∨ origsOf (origStep h ctx params m).2 = [params] := by
  rw [origStep_trace]
  split_ifs
  · right; rfl
  · left; rfl
  · left; rfl

theorem origStepVoid_nexts (ctx : HookContext D) (params : A) (c : Cells) :
    nextsOf (origStepVoid ctx params c : List (Event D A)) = [] := by
  unfold origStepVoid
  split_ifs <;> rfl

theorem origStepVoid_calls (ctx : HookContext D) (params : A) (c : Cells) :
    callsOf (origStepVoid ctx params c : List (Event D A)) = [] := by
  unfold origStepVoid
  split_ifs <;> rfl

theorem origStepVoid_origs (ctx : HookContext D) (params : A) (c : Cells) :
    origsOf (origStepVoid ctx params c : List (Event D A)) = [] ∨
      origsOf (origStepVoid ctx params c : List (Event D A)) = [params] := by
  unfold origStepVoid
  split_ifs
  · right; rfl
  · left; rfl
  · left; rfl

theorem Func_nexts (h : Callees D A V) (ctx : HookContext D) (junk : Mem V) (params : A)
    (pre post : List D) (hctx : ctx.answers = pre.map some ++ none :: (post.map some ++ [none])) :
    nextsOf (Func h ctx junk params).trace = ctx.answers := by
  have hpre : nextsOf (prePass h ctx junk params).2.2 = pre.map some ++ [none] := by
    show nextsOf (Event.SetupHookLoop true ctx.addr :: (hookLoop h ctx params ctx.answers _).2.2) = _
    rw [hctx]
    exact hookLoop_nexts h ctx params pre _ _
  have hpost : nextsOf (hookLoop h ctx params (decision h ctx junk params).2.1
      (postEntry h ctx junk params)).2.2 =
      post.map some ++ [none] := by
    rw [decision_rest, hctx, afterChain_map_some]
    exact hookLoop_nexts h ctx params post [] _
  rw [Func_trace, postPass_trace, decision_trace]
  simp only [nextsOf_append, hpre, hpost, origStep_nexts, hctx]
  split_ifs <;> simp [nextsOf]

theorem FuncVoid_nexts (h : Callees D A Unit) (ctx : HookContext D) (junk : Cells) (params : A)
    (pre post : List D) (hctx : ctx.answers = pre.map some ++ none :: (post.map some ++ [none])) :
    nextsOf (FuncVoid h ctx junk params).2 = ctx.answers := by
  have hpre : nextsOf (prePassVoid h ctx junk params).2.2 = pre.map some ++ [none] := by
    show nextsOf (Event.SetupHookLoop false ctx.addr :: (hookLoopVoid h params ctx.answers _).2.2) = _
    rw [hctx]
    exact hookLoopVoid_nexts h params pre _ _
  have hpost : nextsOf (hookLoopVoid h params (prePassVoid h ctx junk params).2.1
      (postEntryVoid h ctx junk params)).2.2 =
      post.map some ++ [none] := by
    rw [prePassVoid_rest, hctx, afterChain_map_some]
    exact hookLoopVoid_nexts h params post [] _
  rw [FuncVoid_trace]
  simp only [nextsOf_append, hpre, hpost, origStepVoid_nexts, hctx]
  simp [nextsOf]

end visitingOrder

/-- C5. Ordering, for both trampolines.  When `GetNext()` yields the delegates
`pre`, then null, then the delegates `post`, then null, the log of a dispatch
splits into three consecutive parts: the first holds the calls of exactly the
delegates `pre`, in that order, and no invocation of the original; the second
holds no delegate call and at most one invocation of the original; the third
holds the calls of exactly the delegates `post`, in that order, and no
invocation of the original.  All in all the delegates called are `pre ++ post`,
each answer of `GetNext()` is consumed once, whatever results the delegates
report. -/
theorem Func_visits_in_order {D A V : Type} (h : Callees D A V) (hv : Callees D A Unit)
    (ctx : HookContext D) (junk : Mem V) (cjunk : Cells) (params : A) (pre post : List D)
    (hctx : ctx.answers = pre.map some ++ none :: (post.map some ++ [none])) :
    ((∃ t1 t2 t3 : List (Event D A),
        (Func h ctx junk params).trace = t1 ++ t2 ++ t3 ∧
        calledOf t1 = pre ∧ origsOf t1 = [] ∧
        calledOf t2 = [] ∧ (origsOf t2 = [] ∨ origsOf t2 = [params]) ∧
        calledOf t3 = post ∧ origsOf t3 = []) ∧
      calledOf (Func h ctx junk params).trace = pre ++ post ∧
      nextsOf (Func h ctx junk params).trace = ctx.answers) ∧
    ((∃ t1 t2 t3 : List (Event D A),
        (FuncVoid hv ctx cjunk params).2 = t1 ++ t2 ++ t3 ∧
        calledOf t1 = pre ∧ origsOf t1 = [] ∧
        calledOf t2 = [] ∧ (origsOf t2 = [] ∨ origsOf t2 = [params]) ∧
        calledOf t3 = post ∧ origsOf t3 = []) ∧
      calledOf (FuncVoid hv ctx cjunk params).2 = pre ++ post ∧
      nextsOf (FuncVoid hv ctx cjunk params).2 = ctx.answers) := by
  have hprec : ctx.preChain = pre := by
    rw [HookContext.preChain, hctx, chainOf_map_some]
  have hpostc : ctx.postChain = post := by
    rw [HookContext.postChain, hctx, afterChain_map_some, chainOf_map_some]
  obtain ⟨t3, htr, hc3, ho3⟩ := Func_trace_split h ctx junk params
  obtain ⟨u3, hutr, huc3, huo3⟩ := FuncVoid_trace_split hv ctx cjunk params
  have hc1 := calledOf_expected h params _ _ (prePass_calls h ctx junk params)
  have huc1 := calledOf_expected hv params _ _ (prePassVoid_calls hv ctx cjunk params)
  have hc3d := calledOf_expected h params _ _ hc3
  have huc3d := calledOf_expected hv params _ _ huc3
  rw [hprec] at hc1 huc1
  rw [hpostc] at hc3d huc3d
  have hc2 : calledOf (origStep h ctx params (prePass h ctx junk params).1).2 = [] := by
    simp [calledOf, origStep_calls]
  have huc2 : calledOf
      (origStepVoid ctx params (prePassVoid hv ctx cjunk params).1 : List (Event D A)) = [] := by
    simp [calledOf, origStepVoid_calls]
  refine ⟨⟨⟨_, _, t3, htr, hc1, prePass_origs h ctx junk params, hc2,
      origStep_origs h ctx params _, hc3d, ho3⟩, ?_, Func_nexts h ctx junk params pre post hctx⟩,
    ⟨⟨_, _, u3, hutr, huc1, prePassVoid_origs hv ctx cjunk params, huc2,
      origStepVoid_origs ctx params _, huc3d, huo3⟩, ?_,
      FuncVoid_nexts hv ctx cjunk params pre post hctx⟩⟩
  · rw [htr, calledOf_append, calledOf_append, hc1, hc2, hc3d, List.append_nil]
  · rw [hutr, calledOf_append, calledOf_append, huc1, huc2, huc3d, List.append_nil]

/-- Witness of C3: in the example context delegates 1 and 3 both override; the
caller receives 7, the value of the later one. -/
theorem Func_override_last_writer_witness :
    (lastOverride exCallees 0 (exCtx.preChain ++ exCtx.postChain) =
        some (Func exCallees exCtx exJunk 0).ret ∧
      ∀ orig : Nat → Nat,
        (Func { exCallees with Orig := orig } exCtx exJunk 0).ret =
          (Func exCallees exCtx exJunk 0).ret) ∧
    (Func exCallees exCtx exJunk 0).ret = 7 :=
  ⟨Func_override_last_writer exCallees exCtx exJunk 0 rfl (by decide), by decide⟩

/-- Witness of C5 in the example context, whose answers are delegate 1, null,
delegates 2 and 3, null. -/
theorem Func_visits_in_order_witness :
    calledOf (Func exCallees exCtx exJunk 0).trace = [1] ++ [2, 3] ∧
    calledOf (FuncVoid exCalleesVoid exCtx exCells 0).2 = [1] ++ [2, 3] :=
  ⟨(Func_visits_in_order exCallees exCalleesVoid exCtx exJunk exCells 0 [1] [2, 3] rfl).1.2.1,
    (Func_visits_in_order exCallees exCalleesVoid exCtx exJunk exCells 0 [1] [2, 3] rfl).2.2.1⟩

/-! ## The skipped original -/

section skippedOriginal

variable {D A V : Type}

theorem Mem.read_status_update (m : Mem V) (s : META_RES) (p : RetPtr) :
    ({ m with status := s } : Mem V).read p = m.read p := by
  cases p <;> rfl

theorem Mem.read_prev_res_update (m : Mem V) (s : META_RES) (p : RetPtr) :
    ({ m with prev_res := s } : Mem V).read p = m.read p := by
  cases p <;> rfl

theorem loopBody_read_of_lt (h : Callees D A V) (ctx : HookContext D) (params : A) (d : D)
    (m : Mem V) (hlt : ¬ MRES_OVERRIDE ≤ resultOf h params d) (p : RetPtr) :
    (loopBody h ctx params d m).1.read p = m.read p := by
  unfold resultOf at hlt
  unfold loopBody
  simp only [gt_iff_lt, ge_iff_le]
  split_ifs <;> first | (exact absurd ‹_› hlt) | (cases p <;> rfl)

theorem le_sup_right (a b : META_RES) : b ≤ sup a b := by
  rw [META_RES.le_iff, META_RES.toNat_sup]
  omega

theorem hookLoop_read_of_lt (h : Callees D A V) (ctx : HookContext D) (params : A)
    (ans : List (Option D)) (m : Mem V)
    (hlt : ¬ MRES_OVERRIDE ≤ (hookLoop h ctx params ans m).1.status) (p : RetPtr) :
    (hookLoop h ctx params ans m).1.read p = m.read p := by
  induction ans generalizing m with
  | nil => rfl
  | cons x rest ih =>
    cases x with
    | none => rfl
    | some d =>
      have hstep : (hookLoop h ctx params (some d :: rest) m).1 =
          (hookLoop h ctx params rest (loopBody h ctx params d m).1).1 := rfl
      rw [hstep] at hlt ⊢
      rw [ih _ hlt]
      apply loopBody_read_of_lt
      intro hge
      apply hlt
      rw [hookLoop_status, loopBody_status]
      exact META_RES.le_trans hge
        (META_RES.le_trans (le_sup_right m.status _) (le_sup_left _ _))

theorem origStep_skipped (h : Callees D A V) (ctx : HookContext D) (params : A) (m : Mem V)
    (hskip : m.status = MRES_SUPERCEDE ∨ ctx.ShouldCallOrig = false) :
    (origStep h ctx params m).1.orig_ret = m.override_ret := by
  unfold origStep
  rcases hskip with hs | hc
  · simp [hs]
  · rw [hc]
    split_ifs with h1 h2
    · exact absurd h2 (by simp)
    · rfl
    · rfl

end skippedOriginal

/-- C6, as stated, fails.  In the example context the override storage is the
host cell 0; the pre-hook 4 reports `MRES_SUPERCEDE` and its value 9 is written
to that cell; the original is not invoked, and the value stored as the
original return value at the decision step is the content 0 of the
`override_ret` local, not the 9 held by the override storage. -/
theorem Func_skipped_fallback_counterexample :
    origsOf (Func exCallees exCtxHostStorage exJunk 0).trace = [] ∧
    (prePass exCallees exCtxHostStorage exJunk 0).1.status = MRES_SUPERCEDE ∧
    (prePass exCallees exCtxHostStorage exJunk 0).1.read
      exCtxHostStorage.GetOverrideRetPtr = 9 ∧
    (decision exCallees exCtxHostStorage exJunk 0).1.orig_ret = 0 ∧
    (decision exCallees exCtxHostStorage exJunk 0).1.orig_ret ≠
      (prePass exCallees exCtxHostStorage exJunk 0).1.read
        exCtxHostStorage.GetOverrideRetPtr := by
  decide

/-- C6, amended.  When the original is not invoked (the status after the pre
pass is `MRES_SUPERCEDE`, or `ShouldCallOrig()` is false), the value stored as
the original return value at the decision step is the content of the
`override_ret` local, the cell handed to `SetupHookLoop`; this is the content
of the context's override storage when `GetOverrideRetPtr()` designates that
cell.  When in addition the final status stays below `MRES_OVERRIDE` and
`GetOrigRetPtr()` designates the `orig_ret` local, the caller receives that
value. -/
theorem Func_skipped_fallback {D A V : Type} (h : Callees D A V) (ctx : HookContext D)
    (junk : Mem V) (params : A)
    (hskip : (prePass h ctx junk params).1.status = MRES_SUPERCEDE ∨
      ctx.ShouldCallOrig = false) :
    origsOf (Func h ctx junk params).trace = [] ∧
    (decision h ctx junk params).1.orig_ret = (prePass h ctx junk params).1.override_ret ∧
    (ctx.GetOverrideRetPtr = RetPtr.override_ret →
      (decision h ctx junk params).1.orig_ret =
        (prePass h ctx junk params).1.read ctx.GetOverrideRetPtr) ∧
    (ctx.GetOrigRetPtr = RetPtr.orig_ret →
      ¬ MRES_OVERRIDE ≤ (Func h ctx junk params).mem.status →
      (Func h ctx junk params).ret = (prePass h ctx junk params).1.override_ret) := by
  have hdec : (decision h ctx junk params).1.orig_ret =
      (prePass h ctx junk params).1.override_ret :=
    origStep_skipped h ctx params _ hskip
  refine ⟨?_, hdec, ?_, ?_⟩
  · obtain ⟨t2, htr, _, ho2⟩ := Func_trace_split h ctx junk params
    rw [htr, origStep_trace_eq]
    simp only [origsOf_append, prePass_origs, decisionQuery_origs, ho2, origsOf_orig_part,
      List.nil_append, List.append_nil]
    rcases hskip with hs | hc
    · simp [hs]
    · simp [hc]
  · intro hptr
    rw [hdec, hptr]
    rfl
  · intro hptr hlow
    rw [Func_mem] at hlow
    rw [Func_ret, if_neg hlow, hptr, ← hdec]
    have hpost : (postPass h ctx junk params).1 =
        (hookLoop h ctx params (decision h ctx junk params).2.1
          (postEntry h ctx junk params)).1 := rfl
    rw [hpost] at hlow ⊢
    rw [hookLoop_read_of_lt h ctx params _ _ hlow]
    rfl

/-- Witness of C6 amended: in the example context the host forbids the
original, the only hook reports `MRES_HANDLED`, and the caller receives the
content 0 of the `override_ret` local. -/
theorem Func_skipped_fallback_witness :
    (Func exCallees exCtxNoOrig exJunk 0).ret =
      (prePass exCallees exCtxNoOrig exJunk 0).1.override_ret ∧
    (Func exCallees exCtxNoOrig exJunk 0).ret = 0 :=
  ⟨(Func_skipped_fallback exCallees exCtxNoOrig exJunk 0 (Or.inr rfl)).2.2.2 rfl (by decide),
    by decide⟩

/-! ## Recall -/

/-- C8. Recall call sequence, for both overloads: the log starts with
`SetRes(result)` and `DoRecall()`; after them the function stored in entry
`vtblindex` of the vtable at offset `vtbloffs` of the object `GetIfacePtr()`
returned is invoked exactly once, on that object, with the substituted
arguments; the non-void `Recall` returns the value of that invocation. -/
theorem Recall_call_sequence {A V : Type} (envv : RecallEnv A Unit) (env : RecallEnv A V)
    (msMFI_ : MemFuncInfo) (result : META_RES) (value : V) (newparams : A) :
    (∃ t : List (RecallEvent A Unit),
        RecallVoid envv msMFI_ result newparams =
          RecallEvent.SetRes result :: RecallEvent.DoRecall :: t ∧
        invokesOf t =
          [(envv.mem.readPtr (envv.mem.readPtr (envv.GetIfacePtr + msMFI_.vtbloffs) +
              msMFI_.vtblindex * envv.mem.ptrSize), envv.GetIfacePtr, newparams)]) ∧
    (∃ t : List (RecallEvent A V),
        (Recall env msMFI_ result value newparams).2 =
          RecallEvent.SetRes result :: RecallEvent.DoRecall :: t ∧
        invokesOf t =
          [(env.mem.readPtr (env.mem.readPtr (env.GetIfacePtr + msMFI_.vtbloffs) +
              msMFI_.vtblindex * env.mem.ptrSize), env.GetIfacePtr, newparams)]) ∧
    (Recall env msMFI_ result value newparams).1 =
      env.invoke (env.mem.readPtr (env.mem.readPtr (env.GetIfacePtr + msMFI_.vtbloffs) +
        msMFI_.vtblindex * env.mem.ptrSize)) env.GetIfacePtr newparams := by
  refine ⟨⟨_, rfl, ?_⟩, ⟨_, rfl, ?_⟩, ?_⟩
  · simp [invokesOf, GetRecallMFP]
  · cases result <;> simp [invokesOf, GetRecallMFP, SetOverrideResult, META_RES.le_iff,
      META_RES.toNat]
  · simp [Recall, GetRecallMFP]

/-- C9. Recall override write: the non-void `Recall` writes the override
storage once, with the supplied value and before the direct invocation, when
the supplied meta result is `MRES_OVERRIDE` or higher, and does not write it
otherwise. -/
theorem Recall_override_write {A V : Type} (env : RecallEnv A V) (msMFI_ : MemFuncInfo)
    (result : META_RES) (value : V) (newparams : A) :
    overrideWritesOf (Recall env msMFI_ result value newparams).2 =
      (if MRES_OVERRIDE ≤ result then [value] else []) ∧
    overrideWritesOf (beforeInvoke (Recall env msMFI_ result value newparams).2) =
      (if MRES_OVERRIDE ≤ result then [value] else []) ∧
    overrideWritesOf (afterInvoke (Recall env msMFI_ result value newparams).2) = [] ∧
    (result = MRES_IGNORED ∨ result = MRES_HANDLED →
      overrideWritesOf (Recall env msMFI_ result value newparams).2 = []) := by
  refine ⟨?_, ?_, ?_, ?_⟩
  · cases result <;> rfl
  · cases result <;> rfl
  · cases result <;> rfl
  · rintro (hr | hr) <;> subst hr <;> rfl

/-! ## Registration -/

/-- C10. The version handshake fails closed: `HookManPubFunc` returns non-zero
if and only if the host's interface version differs from `SH_IFACE_VERSION`
or its implementation version is below `SH_IMPL_VERSION`; and whenever it
returns non-zero the handler (in particular `msHI_`) is unchanged and
`SetInfo` is not called. -/
theorem HookManPubFunc_fails_closed {H : Type} (k : Versions) (env : RegEnv)
    (self : Handler H) (store : Bool) (hi : Option H) :
    ((HookManPubFunc k env self store hi).1 ≠ 0 ↔
      (env.GetIfaceVersion ≠ k.SH_IFACE_VERSION ∨ env.GetImplVersion < k.SH_IMPL_VERSION)) ∧
    ((HookManPubFunc k env self store hi).1 ≠ 0 →
      (HookManPubFunc k env self store hi).2.1 = self ∧
      (HookManPubFunc k env self store hi).2.1.msHI_ = self.msHI_ ∧
      setInfosOf (HookManPubFunc k env self store hi).2.2 = []) := by
  unfold HookManPubFunc
  by_cases hif : env.GetIfaceVersion = k.SH_IFACE_VERSION
  · by_cases him : env.GetImplVersion < k.SH_IMPL_VERSION
    · simp [hif, him, setInfosOf]
    · cases hi <;> simp [hif, him]
  · simp [hif, setInfosOf]

/-- Witness of C10: a host with implementation version 4, below the expected
5, is refused with 1; the freshly constructed handler keeps its null `msHI_`
although `store` is true, and `SetInfo` is not called. -/
theorem HookManPubFunc_fails_closed_witness :
    (HookManPubFunc exVersions exRegEnvOld (Handler.init Nat) true (some 7)).1 = 1 ∧
    ((HookManPubFunc exVersions exRegEnvOld (Handler.init Nat) true (some 7)).2.1 =
        Handler.init Nat ∧
      (HookManPubFunc exVersions exRegEnvOld (Handler.init Nat) true (some 7)).2.1.msHI_ =
        (Handler.init Nat).msHI_ ∧
      setInfosOf (HookManPubFunc exVersions exRegEnvOld (Handler.init Nat) true (some 7)).2.2 =
        []) :=
  ⟨by decide,
    (HookManPubFunc_fails_closed exVersions exRegEnvOld (Handler.init Nat) true (some 7)).2
      (by decide)⟩

/-- C11. Query-only handshake.  With a host whose versions pass the check,
`HookManPubFunc(false, hi)` returns 0 and leaves the handler, that is `msHI_`
and the method location, unchanged; `HookManPubFunc(true, hi)` returns 0,
leaves `msHI_` equal to `hi` and the method location unchanged; in both cases
`SetInfo` is called exactly once, on `hi`, when `hi` is not null, and not at
all when it is null. -/
theorem HookManPubFunc_query_only {H : Type} (k : Versions) (env : RegEnv)
    (self : Handler H) (hi : Option H)
    (hif : env.GetIfaceVersion = k.SH_IFACE_VERSION)
    (him : k.SH_IMPL_VERSION ≤ env.GetImplVersion) :
    ((HookManPubFunc k env self false hi).1 = 0 ∧
      (HookManPubFunc k env self false hi).2.1 = self) ∧
    ((HookManPubFunc k env self true hi).1 = 0 ∧
      (HookManPubFunc k env self true hi).2.1.msHI_ = hi ∧
      (HookManPubFunc k env self true hi).2.1.msMFI_ = self.msMFI_) ∧
    (∀ store : Bool,
      setInfosOf (HookManPubFunc k env self store hi).2.2 =
        match hi with
        | some p =>
          [RegEvent.SetInfo p k.SH_HOOKMAN_VERSION self.msMFI_.vtbloffs self.msMFI_.vtblindex
            env.protoAddr
            (env.mem.readPtr (env.thisAddr + env.funcInfo.vtbloffs +
              env.funcInfo.vtblindex * env.mem.ptrSize))]
        | none => []) := by
  have him2 : ¬ env.GetImplVersion < k.SH_IMPL_VERSION := not_lt.mpr him
  unfold HookManPubFunc
  refine ⟨?_, ?_, ?_⟩
  · cases hi <;> simp [hif, him2]
  · cases hi <;> simp [hif, him2]
  · intro store
    cases hi <;> cases store <;> simp [hif, him2, setInfosOf]

/-- Witness of C11: a query and a store on a freshly constructed handler, with
the handle 7 and a host whose versions pass. -/
theorem HookManPubFunc_query_only_witness :
    (HookManPubFunc exVersions exRegEnv (Handler.init Nat) false (some 7)).2.1 =
      Handler.init Nat ∧
    (HookManPubFunc exVersions exRegEnv (Handler.init Nat) true (some 7)).2.1.msHI_ = some 7 ∧
    (setInfosOf
      (HookManPubFunc exVersions exRegEnv (Handler.init Nat) false (some 7)).2.2).length = 1 :=
  ⟨(HookManPubFunc_query_only exVersions exRegEnv (Handler.init Nat) (some 7) rfl
      (by decide)).1.2,
    (HookManPubFunc_query_only exVersions exRegEnv (Handler.init Nat) (some 7) rfl
      (by decide)).2.1.2.1,
    by decide⟩

/-- C12. Reconfigure rebinds the location after detaching.  `Reconfigure(i, o,
t)` calls `RemoveHookManager` exactly once, while the location still has its
old content; afterwards the location has `vtblindex = i`, `vtbloffs = o` and
`thisptroffs = t` (0 for an omitted argument) and nothing else has changed; a
following `HookManPubFunc` that passes the version check with the handle `p`
reports to `SetInfo` the vtable offset `o` and then the vtable index `i`. -/
theorem Reconfigure_rebinds_location {H : Type} (k : Versions) (env : RegEnv)
    (self : Handler H) (i o t : Int) (store : Bool) (p : H)
    (hif : env.GetIfaceVersion = k.SH_IFACE_VERSION)
    (him : k.SH_IMPL_VERSION ≤ env.GetImplVersion) :
    (Reconfigure self i o t).2 = [RegEvent.RemoveHookManager self.msMFI_] ∧
    (Reconfigure self i o t).1 =
      { msMFI_ := { isVirtual := self.msMFI_.isVirtual, thisptroffs := t, vtblindex := i,
                    vtbloffs := o }
        msHI_ := self.msHI_ } ∧
    (Reconfigure_2 self i o).1.msMFI_ =
      { isVirtual := self.msMFI_.isVirtual, thisptroffs := 0, vtblindex := i, vtbloffs := o } ∧
    (Reconfigure_1 self i).1.msMFI_ =
      { isVirtual := self.msMFI_.isVirtual, thisptroffs := 0, vtblindex := i, vtbloffs := 0 } ∧
    (HookManPubFunc k env (Reconfigure self i o t).1 store (some p)).1 = 0 ∧
    setInfosOf (HookManPubFunc k env (Reconfigure self i o t).1 store (some p)).2.2 =
      [RegEvent.SetInfo p k.SH_HOOKMAN_VERSION o i env.protoAddr
        (env.mem.readPtr (env.thisAddr + env.funcInfo.vtbloffs +
          env.funcInfo.vtblindex * env.mem.ptrSize))] := by
  have him2 : ¬ env.GetImplVersion < k.SH_IMPL_VERSION := not_lt.mpr him
  refine ⟨rfl, rfl, rfl, rfl, ?_, ?_⟩
  · unfold HookManPubFunc
    simp [hif, him2]
  · unfold HookManPubFunc
    cases store <;> simp [hif, him2, setInfosOf, Reconfigure]

/-- Witness of C12: `Reconfigure(3, 8, 4)` on a freshly constructed handler,
followed by a registration with the handle 7. -/
theorem Reconfigure_rebinds_location_witness :
    (Reconfigure (Handler.init Nat) 3 8 4).1.msMFI_ =
      { isVirtual := false, thisptroffs := 4, vtblindex := 3, vtbloffs := 8 } ∧
    setInfosOf
      (HookManPubFunc exVersions exRegEnv (Reconfigure (Handler.init Nat) 3 8 4).1 true
        (some 7)).2.2 =
      [RegEvent.SetInfo 7 1 8 3 1040 1017] :=
  ⟨by decide,
    (Reconfigure_rebinds_location exVersions exRegEnv (Handler.init Nat) 3 8 4 true 7 rfl
      (by decide)).2.2.2.2.2⟩

/-! ## Type descriptors -/

/-- C13. Void return sentinel: for every parameter list the return descriptor
of a void-returning signature is the descriptor with size 0, type 0 and flags
0, and the return descriptor of a signature returning the non-void type `t`
has size `sizeof(t)` and the type and flags of `GetPassInfo<t>`;
`GetRetPassInfo` always yields a descriptor. -/
theorem CProtoInfo_return_descriptor {T : Type} (tr : TypeTraits T) (params : List T)
    (junk : Nat → PassInfo) (t : T) :
    (CProtoInfo.new tr CType.void params junk).GetRetPassInfo =
      { size := 0, type := 0, flags := 0 } ∧
    (CProtoInfo.new tr CType.void params junk).GetRetPassInfo =
      { size := ReturnTypeInfo.size tr CType.void, type := ReturnTypeInfo.type tr CType.void,
        flags := ReturnTypeInfo.flags tr CType.void } ∧
    (CProtoInfo.new tr (CType.of t) params junk).GetRetPassInfo =
      { size := tr.sizeof t, type := tr.passType t, flags := tr.passFlags t } :=
  ⟨rfl, rfl, rfl⟩

section paramsTable

variable {T : Type}

theorem TypeInfo_of (tr : TypeTraits T) (t : T) (p : PassInfo) :
    TypeInfo tr (CType.of t) p = descriptorOf tr t := rfl

theorem InitializePassInfo_cons (tr : TypeTraits T) (index : Nat) (t : T) (rest : List T)
    (a : ParamsArray) :
    InitializePassInfo tr index (t :: rest) a =
      InitializePassInfo tr (index + 1) rest
        { entries := fun j => if j = index then descriptorOf tr t else a.entries j
          written := a.written ++ [index] } := by
  cases rest <;> rfl

theorem InitializePassInfo_written (tr : TypeTraits T) (args : List T) (index : Nat)
    (a : ParamsArray) :
    (InitializePassInfo tr index args a).written =
      a.written ++ List.range' index args.length := by
  induction args generalizing index a with
  | nil => simp [InitializePassInfo]
  | cons t rest ih =>
    rw [InitializePassInfo_cons, ih]
    simp [List.range'_succ]

theorem InitializePassInfo_entries (tr : TypeTraits T) (args : List T) (index : Nat)
    (a : ParamsArray) (j : Nat) :
    (InitializePassInfo tr index args a).entries j =
      if j < index then a.entries j
      else match args[j - index]? with
        | some t => descriptorOf tr t
        | none => a.entries j := by
  induction args generalizing index a with
  | nil => simp [InitializePassInfo]
  | cons t rest ih =>
    rw [InitializePassInfo_cons, ih]
    by_cases hlt : j < index
    · have hlt1 : j < index + 1 := Nat.lt_succ_of_lt hlt
      have hne : j ≠ index := Nat.ne_of_lt hlt
      simp [hlt, hlt1, hne]
    · by_cases heq : j = index
      · subst heq
        simp
      · have hgt : ¬ j < index + 1 := by omega
        obtain ⟨d, hd⟩ : ∃ d, j - index = d + 1 := ⟨j - index - 1, by omega⟩
        have hd1 : j - (index + 1) = d := by omega
        simp [hlt, hgt, heq, hd, hd1]

end paramsTable

/-- C14. The parameter descriptor table is 1:1 and ordered: `GetNumOfParams()`
is the number `n` of parameter types; with no parameter the table is the null
pointer; otherwise the constructor assigns the entries 0, 1, ..., n-1, each
once and in that order, entry `i` is the descriptor of type `i` (its size and
its `GetPassInfo` type and flags), and no entry from index `n` on is assigned. -/
theorem CProtoInfo_params_table {T : Type} (tr : TypeTraits T) (ret : CType T)
    (params : List T) (junk : Nat → PassInfo) :
    (CProtoInfo.new tr ret params junk).GetNumOfParams = params.length ∧
    (params = [] → (CProtoInfo.new tr ret params junk).GetParamsPassInfo = none) ∧
    (params ≠ [] →
      ∃ arr : ParamsArray,
        (CProtoInfo.new tr ret params junk).paramsPassInfo.params_ = some arr ∧
        (CProtoInfo.new tr ret params junk).GetParamsPassInfo = some arr.entries ∧
        arr.written = List.range params.length ∧
        (∀ (i : Nat) (t : T), params[i]? = some t →
          arr.entries i =
            { size := tr.sizeof t, type := tr.passType t, flags := tr.passFlags t }) ∧
        (∀ i : Nat, params.length ≤ i → arr.entries i = junk i)) := by
  refine ⟨?_, ?_, ?_⟩
  · cases params <;> rfl
  · intro hnil
    subst hnil
    rfl
  · intro hne
    obtain ⟨t, rest, hparams⟩ := List.exists_cons_of_ne_nil hne
    subst hparams
    refine ⟨InitializePassInfo tr 0 (t :: rest) { entries := junk, written := [] },
      rfl, rfl, ?_, ?_, ?_⟩
    · rw [InitializePassInfo_written]
      simp [List.range_eq_range']
    · intro i u hu
      rw [InitializePassInfo_entries]
      simp only [Nat.not_lt_zero, if_false, Nat.sub_zero, hu]
      rfl
    · intro i hi
      rw [InitializePassInfo_entries]
      have hnone : (t :: rest)[i]? = none := List.getElem?_eq_none hi
      simp only [Nat.not_lt_zero, if_false, Nat.sub_zero, hnone]

/-- C18, as stated, fails: `TypeInfo<void>` writes size 1, not size 0, so the
descriptor it leaves differs from the one `ReturnTypeInfo<void>` yields. -/
theorem TypeInfo_void_counterexample :
    TypeInfo exTraits CType.void { size := 0, type := 0, flags := 0 } =
      { size := 1, type := 0, flags := 0 } ∧
    TypeInfo exTraits CType.void { size := 0, type := 0, flags := 0 } ≠
      { size := 0, type := 0, flags := 0 } ∧
    TypeInfo exTraits CType.void { size := 0, type := 0, flags := 0 } ≠
      { size := ReturnTypeInfo.size exTraits CType.void,
        type := ReturnTypeInfo.type exTraits CType.void,
        flags := ReturnTypeInfo.flags exTraits CType.void } := by
  decide

/-- C18, amended: `TypeInfo<void>` writes into the given `PassInfo` size 1,
type 0 and flags 0; type and flags are those `ReturnTypeInfo<void>` yields,
the size is not, `ReturnTypeInfo<void>` yielding size 0. -/
theorem TypeInfo_void_descriptor {T : Type} (tr : TypeTraits T) (passInfo : PassInfo) :
    TypeInfo tr CType.void passInfo = { size := 1, type := 0, flags := 0 } ∧
    (TypeInfo tr CType.void passInfo).type = ReturnTypeInfo.type tr CType.void ∧
    (TypeInfo tr CType.void passInfo).flags = ReturnTypeInfo.flags tr CType.void ∧
    ReturnTypeInfo.size tr CType.void = 0 ∧
    (TypeInfo tr CType.void passInfo).size ≠ ReturnTypeInfo.size tr CType.void := by
  refine ⟨rfl, rfl, rfl, rfl, ?_⟩
  show (1 : Nat) ≠ 0
  decide

/-! ## Void and non-void trampolines side by side -/

section symmetry

variable {D A V : Type}

theorem voidView_append (t u : List (Event D A)) :
    voidView (t ++ u) = voidView t ++ voidView u := by
  induction t with
  | nil => rfl
  | cons e t ih => cases e <;> simp [voidView, ih]

theorem callsOf_voidView (t : List (Event D A)) : callsOf (voidView t) = callsOf t := by
  induction t with
  | nil => rfl
  | cons e t ih => cases e <;> simp [voidView, callsOf, ih]

theorem origsOf_voidView (t : List (Event D A)) : origsOf (voidView t) = origsOf t := by
  induction t with
  | nil => rfl
  | cons e t ih => cases e <;> simp [voidView, origsOf, ih]

theorem itersOf_voidView (t : List (Event D A)) : itersOf (voidView t) = itersOf t := by
  induction t with
  | nil => rfl
  | cons e t ih => cases e <;> simp [voidView, itersOf, ih]

theorem nextsOf_voidView (t : List (Event D A)) : nextsOf (voidView t) = nextsOf t := by
  induction t with
  | nil => rfl
  | cons e t ih => cases e <;> simp [voidView, nextsOf, ih]

theorem resultOf_forget (h : Callees D A V) (params : A) (d : D) :
    resultOf h.forget params d = resultOf h params d := rfl

theorem voidView_loopBody (h : Callees D A V) (ctx : HookContext D) (params : A) (d : D)
    (m : Mem V) (c : Cells) (hst : m.status = c.status) :
    voidView (loopBody h ctx params d m).2 = (loopBodyVoid h.forget params d c).2 := by
  rw [loopBody_trace, loopBodyVoid_trace, resultOf_forget, hst]
  split_ifs <;> rfl

theorem voidView_hookLoop (h : Callees D A V) (ctx : HookContext D) (params : A)
    (ans : List (Option D)) (m : Mem V) (c : Cells) (hst : m.status = c.status) :
    voidView (hookLoop h ctx params ans m).2.2 = (hookLoopVoid h.forget params ans c).2.2 := by
  induction ans generalizing m c with
  | nil => rfl
  | cons x rest ih =>
    cases x with
    | none => rfl
    | some d =>
      have hnext : (loopBody h ctx params d m).1.status =
          (loopBodyVoid h.forget params d c).1.status := by
        rw [loopBody_status, loopBodyVoid_status, resultOf_forget, hst]
      rw [hookLoop_some, hookLoopVoid_some]
      show Event.GetNext (some d) :: voidView _ = _
      rw [voidView_append, voidView_loopBody h ctx params d m c hst, ih _ _ hnext]

theorem hookLoop_status_eq_void (h : Callees D A V) (ctx : HookContext D) (params : A)
    (ans : List (Option D)) (m : Mem V) (c : Cells) (hst : m.status = c.status) :
    (hookLoop h ctx params ans m).1.status = (hookLoopVoid h.forget params ans c).1.status := by
  rw [hookLoop_status, hookLoopVoid_status, hst]
  rfl

theorem prePass_status_eq_void (h : Callees D A V) (ctx : HookContext D) (junk : Mem V)
    (cjunk : Cells) (params : A) :
    (prePass h ctx junk params).1.status = (prePassVoid h.forget ctx cjunk params).1.status := by
  rw [prePass_status, prePassVoid_status]
  rfl

theorem voidView_prePass (h : Callees D A V) (ctx : HookContext D) (junk : Mem V)
    (cjunk : Cells) (params : A) :
    voidView (prePass h ctx junk params).2.2 = (prePassVoid h.forget ctx cjunk params).2.2 := by
  show Event.SetupHookLoop false ctx.addr :: voidView (hookLoop h ctx params ctx.answers _).2.2 =
    Event.SetupHookLoop false ctx.addr :: (hookLoopVoid h.forget params ctx.answers _).2.2
  rw [voidView_hookLoop h ctx params ctx.answers _
    (preEntryVoid cjunk) rfl]

theorem voidView_origStep (h : Callees D A V) (ctx : HookContext D) (params : A) (m : Mem V)
    (c : Cells) (hst : m.status = c.status) :
    voidView (origStep h ctx params m).2 = origStepVoid ctx params c := by
  rw [origStep_trace, hst]
  unfold origStepVoid
  split_ifs <;> rfl

theorem voidView_Func (h : Callees D A V) (ctx : HookContext D) (junk : Mem V)
    (cjunk : Cells) (params : A) :
    voidView (Func h ctx junk params).trace = (FuncVoid h.forget ctx cjunk params).2 := by
  have hpre := prePass_status_eq_void h ctx junk cjunk params
  have hdec : ((postEntry h ctx junk params) : Mem V).status =
      ((postEntryVoid h.forget ctx cjunk params) :
        Cells).status := by
    show (decision h ctx junk params).1.status = (prePassVoid h.forget ctx cjunk params).1.status
    rw [decision_status, prePassVoid_status]
    rfl
  rw [Func_trace, postPass_trace, decision_trace, FuncVoid_trace]
  simp only [voidView_append]
  rw [voidView_prePass h ctx junk cjunk params,
    voidView_origStep h ctx params _ _ hpre,
    voidView_hookLoop h ctx params _ _ _ hdec, decision_rest, prePassVoid_rest]
  split_ifs <;> rfl

theorem Func_status_eq_void (h : Callees D A V) (ctx : HookContext D) (junk : Mem V)
    (cjunk : Cells) (params : A) :
    (Func h ctx junk params).mem.status = (FuncVoid h.forget ctx cjunk params).1.status := by
  rw [Func_mem, postPass_status, FuncVoid_status]
  rfl

theorem voidView_FuncVoid (hv : Callees D A Unit) (ctx : HookContext D) (cjunk : Cells)
    (params : A) :
    voidView (FuncVoid hv ctx cjunk params).2 = (FuncVoid hv ctx cjunk params).2 := by
  have hloop : ∀ (ans : List (Option D)) (c : Cells),
      voidView (hookLoopVoid hv params ans c).2.2 = (hookLoopVoid hv params ans c).2.2 := by
    intro ans
    induction ans with
    | nil => intro c; rfl
    | cons x rest ih =>
      intro c
      cases x with
      | none => rfl
      | some d =>
        rw [hookLoopVoid_some, loopBodyVoid_trace]
        show Event.GetNext (some d) :: Event.Call d params _ :: Event.Iter _ _ _ ::
          voidView (hookLoopVoid hv params rest (loopBodyVoid hv params d c).1).2.2 = _
        rw [ih]
        rfl
  have hdec : ∀ c : Cells, voidView (origStepVoid ctx params c : List (Event D A)) =
      origStepVoid ctx params c := by
    intro c
    unfold origStepVoid
    split_ifs <;> rfl
  rw [FuncVoid_trace]
  simp only [voidView_append, hdec]
  have hpre : voidView (prePassVoid hv ctx cjunk params).2.2 =
      (prePassVoid hv ctx cjunk params).2.2 := by
    show Event.SetupHookLoop false ctx.addr ::
        voidView (hookLoopVoid hv params ctx.answers _).2.2 =
      Event.SetupHookLoop false ctx.addr :: (hookLoopVoid hv params ctx.answers _).2.2
    rw [hloop]
  rw [hpre, hloop]
  rfl

theorem Mem.write_cells (m : Mem V) (p : RetPtr) (v : V) : (m.write p v).cells = m.cells := by
  cases p <;> rfl

theorem loopBody_cells (h : Callees D A V) (ctx : HookContext D) (params : A) (d : D)
    (m : Mem V) :
    (loopBody h ctx params d m).1.cells = (loopBodyVoid h.forget params d m.cells).1 := by
  unfold loopBody loopBodyVoid
  simp only [gt_iff_lt, ge_iff_le, Mem.cells, Callees.forget]
  split_ifs <;> simp

theorem hookLoop_cells (h : Callees D A V) (ctx : HookContext D) (params : A)
    (ans : List (Option D)) (m : Mem V) :
    (hookLoop h ctx params ans m).1.cells = (hookLoopVoid h.forget params ans m.cells).1 := by
  induction ans generalizing m with
  | nil => rfl
  | cons x rest ih =>
    cases x with
    | none => rfl
    | some d =>
      show (hookLoop h ctx params rest (loopBody h ctx params d m).1).1.cells =
        (hookLoopVoid h.forget params rest (loopBodyVoid h.forget params d m.cells).1).1
      rw [ih, loopBody_cells]

theorem preEntry_cells (junk : Mem V) : (preEntry junk).cells = preEntryVoid junk.cells := rfl

theorem prePass_cells (h : Callees D A V) (ctx : HookContext D) (junk : Mem V) (params : A) :
    (prePass h ctx junk params).1.cells = (prePassVoid h.forget ctx junk.cells params).1 := by
  show (hookLoop h ctx params ctx.answers (preEntry junk)).1.cells =
    (hookLoopVoid h.forget params ctx.answers (preEntryVoid junk.cells)).1
  rw [hookLoop_cells, preEntry_cells]

theorem decision_cells (h : Callees D A V) (ctx : HookContext D) (junk : Mem V) (params : A) :
    (decision h ctx junk params).1.cells = (prePass h ctx junk params).1.cells := by
  show (origStep h ctx params (prePass h ctx junk params).1).1.cells = _
  unfold origStep
  split_ifs <;> rfl

theorem postEntry_cells (h : Callees D A V) (ctx : HookContext D) (junk : Mem V)
    (params : A) :
    (postEntry h ctx junk params).cells = postEntryVoid h.forget ctx junk.cells params := by
  have hd : (decision h ctx junk params).1.cells =
      (prePassVoid h.forget ctx junk.cells params).1 :=
    (decision_cells h ctx junk params).trans (prePass_cells h ctx junk params)
  show ({ (decision h ctx junk params).1.cells with prev_res := MRES_IGNORED } : Cells) =
    { (prePassVoid h.forget ctx junk.cells params).1 with prev_res := MRES_IGNORED }
  rw [hd]

theorem Func_cells (h : Callees D A V) (ctx : HookContext D) (junk : Mem V) (params : A) :
    (Func h ctx junk params).mem.cells = (FuncVoid h.forget ctx junk.cells params).1 := by
  rw [Func_mem]
  show (hookLoop h ctx params (decision h ctx junk params).2.1
      (postEntry h ctx junk params)).1.cells =
    (hookLoopVoid h.forget params (prePassVoid h.forget ctx junk.cells params).2.1
      (postEntryVoid h.forget ctx junk.cells params)).1
  rw [hookLoop_cells, postEntry_cells, decision_rest, prePassVoid_rest]

end symmetry

/-- C15. Void and non-void symmetry.  For every host context and every
behaviour of the delegates, the log of the non-void trampoline, once the null
return storages are put in `SetupHookLoop` and the calls of
`GetOverrideRetPtr()` and `GetOrigRetPtr()` are dropped, is the log of the
void trampoline run with the same delegate results: the same delegate calls,
the same decision about the original, the same values of `status`, `prev_res`
and `cur_res` after every loop body, the same `GetNext()` answers consumed,
and the same final status.  The log of the void trampoline itself has null
return storages and no call of the two getters.  The three result cells also
go through the same values outside the loop bodies: they agree when the pre
loop is entered (after the two initial assignments), a loop body and a whole
loop map equal cells to equal cells, the decision leaves them alone, they
agree when the post loop is entered (after the second reset of `prev_res`)
and when the trampoline returns. -/
theorem Func_void_symmetry {D A V : Type} (h : Callees D A V) (ctx : HookContext D)
    (junk : Mem V) (cjunk : Cells) (params : A) :
    voidView (Func h ctx junk params).trace = (FuncVoid h.forget ctx cjunk params).2 ∧
    voidView (FuncVoid h.forget ctx cjunk params).2 = (FuncVoid h.forget ctx cjunk params).2 ∧
    callsOf (Func h ctx junk params).trace = callsOf (FuncVoid h.forget ctx cjunk params).2 ∧
    origsOf (Func h ctx junk params).trace = origsOf (FuncVoid h.forget ctx cjunk params).2 ∧
    itersOf (Func h ctx junk params).trace = itersOf (FuncVoid h.forget ctx cjunk params).2 ∧
    nextsOf (Func h ctx junk params).trace = nextsOf (FuncVoid h.forget ctx cjunk params).2 ∧
    (Func h ctx junk params).mem.status = (FuncVoid h.forget ctx cjunk params).1.status ∧
    (preEntry junk).cells = preEntryVoid junk.cells ∧
    (preEntry junk).cells =
      { status := MRES_IGNORED, prev_res := MRES_IGNORED, cur_res := junk.cur_res } ∧
    (∀ (d : D) (m : Mem V),
      (loopBody h ctx params d m).1.cells = (loopBodyVoid h.forget params d m.cells).1) ∧
    (∀ (ans : List (Option D)) (m : Mem V),
      (hookLoop h ctx params ans m).1.cells = (hookLoopVoid h.forget params ans m.cells).1 ∧
      voidView (hookLoop h ctx params ans m).2.2 =
        (hookLoopVoid h.forget params ans m.cells).2.2) ∧
    (prePass h ctx junk params).1.cells = (prePassVoid h.forget ctx junk.cells params).1 ∧
    (decision h ctx junk params).1.cells = (prePass h ctx junk params).1.cells ∧
    (postEntry h ctx junk params).cells = postEntryVoid h.forget ctx junk.cells params ∧
    (postEntry h ctx junk params).cells =
      { (prePass h ctx junk params).1.cells with prev_res := MRES_IGNORED } ∧
    (postPass h ctx junk params).1 =
      (hookLoop h ctx params (afterChain ctx.answers) (postEntry h ctx junk params)).1 ∧
    (Func h ctx junk params).mem.cells = (FuncVoid h.forget ctx junk.cells params).1 := by
  have hview := voidView_Func h ctx junk cjunk params
  refine ⟨hview, voidView_FuncVoid h.forget ctx cjunk params, ?_, ?_, ?_, ?_,
    Func_status_eq_void h ctx junk cjunk params, preEntry_cells junk, rfl,
    loopBody_cells h ctx params, ?_, prePass_cells h ctx junk params,
    decision_cells h ctx junk params, postEntry_cells h ctx junk params, ?_, ?_,
    Func_cells h ctx junk params⟩
  · rw [← hview, callsOf_voidView]
  · rw [← hview, origsOf_voidView]
  · rw [← hview, itersOf_voidView]
  · rw [← hview, nextsOf_voidView]
  · intro ans m
    exact ⟨hookLoop_cells h ctx params ans m, voidView_hookLoop h ctx params ans m m.cells rfl⟩
  · show ({ (decision h ctx junk params).1.cells with prev_res := MRES_IGNORED } : Cells) = _
    rw [decision_cells]
  · show (hookLoop h ctx params (decision h ctx junk params).2.1
      (postEntry h ctx junk params)).1 = _
    rw [decision_rest]

/-! ## The example scenario -/

/-- C16. Example scenario: no pre-hook, the post-hooks `H1` (visited first,
reports `MRES_HANDLED` and returns any value) and `H2` (reports
`MRES_OVERRIDE` and returns 7), a host that lets the original run and an
original that returns 3.  The original is invoked exactly once and its 3 is
stored as the original return value, the final status is `MRES_OVERRIDE`, and
the caller receives 7. -/
theorem Func_example_scenario {D A : Type} (h : Callees D A Nat) (ctx : HookContext D)
    (junk : Mem Nat) (params : A) (H1 H2 : D) (v1 : Nat)
    (hH1 : h.Call H1 params = (some MRES_HANDLED, v1))
    (hH2 : h.Call H2 params = (some MRES_OVERRIDE, 7))
    (horig : h.Orig params = 3)
    (hans : ctx.answers = [none, some H1, some H2, none])
    (hcall : ctx.ShouldCallOrig = true) :
    origsOf (Func h ctx junk params).trace = [params] ∧
    calledOf (Func h ctx junk params).trace = [H1, H2] ∧
    (decision h ctx junk params).1.orig_ret = 3 ∧
    (Func h ctx junk params).mem.status = MRES_OVERRIDE ∧
    (Func h ctx junk params).ret = 7 := by
  have hpre : ctx.preChain = [] := by
    rw [HookContext.preChain, hans]
    rfl
  have hpost : ctx.postChain = [H1, H2] := by
    rw [HookContext.postChain, hans]
    rfl
  have hr1 : resultOf h params H1 = MRES_HANDLED := by
    simp [resultOf, hH1]
  have hr2 : resultOf h params H2 = MRES_OVERRIDE := by
    simp [resultOf, hH2]
  have hst : (Func h ctx junk params).mem.status = MRES_OVERRIDE := by
    rw [Func_mem, postPass_status, hpre, hpost]
    simp only [List.nil_append, resultsOf, List.map_cons, List.map_nil, hr1, hr2]
    rfl
  have hprest : (prePass h ctx junk params).1.status = MRES_IGNORED := by
    rw [prePass_status, hpre]
    rfl
  obtain ⟨t2, htr, hc2, ho2⟩ := Func_trace_split h ctx junk params
  have hdec : (decision h ctx junk params).1.orig_ret = 3 := by
    show (origStep h ctx params (prePass h ctx junk params).1).1.orig_ret = 3
    unfold origStep
    rw [hprest, hcall]
    simpa using horig
  refine ⟨?_, ?_, hdec, hst, ?_⟩
  · rw [htr, origStep_trace_eq]
    simp only [origsOf_append, prePass_origs, decisionQuery_origs, ho2, origsOf_orig_part,
      List.nil_append, List.append_nil]
    rw [hprest, hcall]
    simp
  · rw [htr, calledOf_append, calledOf_append,
      calledOf_expected h params _ _ (prePass_calls h ctx junk params),
      calledOf_expected h params _ _ hc2, hpre, hpost]
    simp [calledOf, origStep_calls]
  · rw [Func_mem] at hst
    rw [Func_ret, if_pos (by rw [hst]; decide)]
    have hloop : (postPass h ctx junk params).1 =
        (hookLoop h ctx params [some H1, some H2, none]
          (postEntry h ctx junk params)).1 := by
      show (hookLoop h ctx params (decision h ctx junk params).2.1 _).1 = _
      rw [decision_rest, hans]
      rfl
    rw [hloop]
    have hbody2 : ∀ m : Mem Nat, (loopBody h ctx params H2 m).1.read ctx.GetOverrideRetPtr = 7 := by
      intro m
      unfold loopBody
      simp only [hH2, gt_iff_lt, ge_iff_le, Option.getD_some]
      have hle : MRES_OVERRIDE ≤ MRES_OVERRIDE := by decide
      split_ifs <;> exact Mem.read_write_same _ _ _
    exact hbody2 _

/-- Witness of C16 with the example callees: post-hook 2 reports handled,
post-hook 3 overrides with 7, the original returns 3, and the caller receives
7. -/
theorem Func_example_scenario_witness :
    origsOf (Func exCallees exCtxScenario exJunk 0).trace = [0] ∧
    calledOf (Func exCallees exCtxScenario exJunk 0).trace = [2, 3] ∧
    (decision exCallees exCtxScenario exJunk 0).1.orig_ret = 3 ∧
    (Func exCallees exCtxScenario exJunk 0).mem.status = MRES_OVERRIDE ∧
    (Func exCallees exCtxScenario exJunk 0).ret = 7 :=
  Func_example_scenario exCallees exCtxScenario exJunk 0 2 3 6 rfl rfl rfl rfl rfl

/-! ## Context pairing -/

section pairing

variable {D A V : Type}

theorem lifecycleOf_append (t u : List (Event D A)) :
    lifecycleOf (t ++ u) = lifecycleOf t ++ lifecycleOf u := by
  induction t with
  | nil => rfl
  | cons e t ih => cases e <;> simp [lifecycleOf, ih]

theorem loopBody_lifecycle (h : Callees D A V) (ctx : HookContext D) (params : A) (d : D)
    (m : Mem V) : lifecycleOf (loopBody h ctx params d m).2 = [] := by
  rw [loopBody_trace]
  split_ifs <;> rfl

theorem loopBodyVoid_lifecycle (h : Callees D A Unit) (params : A) (d : D) (c : Cells) :
    lifecycleOf (loopBodyVoid h params d c).2 = [] := by
  rw [loopBodyVoid_trace]
  rfl

theorem hookLoop_lifecycle (h : Callees D A V) (ctx : HookContext D) (params : A)
    (ans : List (Option D)) (m : Mem V) :
    lifecycleOf (hookLoop h ctx params ans m).2.2 = [] := by
  induction ans generalizing m with
  | nil => rfl
  | cons x rest ih =>
    cases x with
    | none => rfl
    | some d =>
      rw [hookLoop_some]
      show lifecycleOf ((loopBody h ctx params d m).2 ++ _) = []
      rw [lifecycleOf_append, loopBody_lifecycle, ih]
      rfl

theorem hookLoopVoid_lifecycle (h : Callees D A Unit) (params : A)
    (ans : List (Option D)) (c : Cells) :
    lifecycleOf (hookLoopVoid h params ans c).2.2 = [] := by
  induction ans generalizing c with
  | nil => rfl
  | cons x rest ih =>
    cases x with
    | none => rfl
    | some d =>
      rw [hookLoopVoid_some]
      show lifecycleOf ((loopBodyVoid h params d c).2 ++ _) = []
      rw [lifecycleOf_append, loopBodyVoid_lifecycle, ih]
      rfl

theorem origStep_lifecycle (h : Callees D A V) (ctx : HookContext D) (params : A) (m : Mem V) :
    lifecycleOf (origStep h ctx params m).2 = [] := by
  rw [origStep_trace]
  split_ifs <;> rfl

theorem origStepVoid_lifecycle (ctx : HookContext D) (params : A) (c : Cells) :
    lifecycleOf (origStepVoid ctx params c : List (Event D A)) = [] := by
  unfold origStepVoid
  split_ifs <;> rfl

theorem Func_trace_frame (h : Callees D A V) (ctx : HookContext D) (junk : Mem V)
    (params : A) :
    ∃ mid : List (Event D A),
      (Func h ctx junk params).trace =
        Event.SetupHookLoop true ctx.addr :: (mid ++ [Event.EndContext ctx.addr]) ∧
      lifecycleOf mid = [] := by
  refine ⟨(hookLoop h ctx params ctx.answers
      (preEntry junk)).2.2 ++
    (origStep h ctx params (prePass h ctx junk params).1).2 ++
    (hookLoop h ctx params (decision h ctx junk params).2.1
      (postEntry h ctx junk params)).2.2 ++
    [if MRES_OVERRIDE ≤ (postPass h ctx junk params).1.status then Event.GetOverrideRetPtr
      else Event.GetOrigRetPtr], ?_, ?_⟩
  · rw [Func_trace, postPass_trace, decision_trace]
    show (Event.SetupHookLoop true ctx.addr :: (hookLoop h ctx params ctx.answers _).2.2) ++ _ ++ _ ++ _
      = _
    simp only [List.cons_append, List.append_assoc, List.singleton_append, List.nil_append]
  · simp only [lifecycleOf_append, hookLoop_lifecycle, origStep_lifecycle, List.nil_append]
    split_ifs <;> rfl

theorem FuncVoid_trace_frame (h : Callees D A Unit) (ctx : HookContext D) (junk : Cells)
    (params : A) :
    ∃ mid : List (Event D A),
      (FuncVoid h ctx junk params).2 =
        Event.SetupHookLoop false ctx.addr :: (mid ++ [Event.EndContext ctx.addr]) ∧
      lifecycleOf mid = [] := by
  refine ⟨(hookLoopVoid h params ctx.answers
      (preEntryVoid junk)).2.2 ++
    origStepVoid ctx params (prePassVoid h ctx junk params).1 ++
    (hookLoopVoid h params (prePassVoid h ctx junk params).2.1
      (postEntryVoid h ctx junk params)).2.2, ?_, ?_⟩
  · rw [FuncVoid_trace]
    show (Event.SetupHookLoop false ctx.addr :: (hookLoopVoid h params ctx.answers _).2.2) ++ _ ++ _ ++ _
      = _
    simp only [List.cons_append, List.append_assoc]
  · simp only [lifecycleOf_append, hookLoopVoid_lifecycle, origStepVoid_lifecycle,
      List.nil_append]

theorem callsOf_frame (b : Bool) (p q : Int) (mid : List (Event D A)) :
    callsOf (Event.SetupHookLoop b p :: (mid ++ [Event.EndContext q])) = callsOf mid := by
  show callsOf (mid ++ [Event.EndContext q]) = callsOf mid
  rw [callsOf_append]
  exact List.append_nil _

theorem origsOf_frame (b : Bool) (p q : Int) (mid : List (Event D A)) :
    origsOf (Event.SetupHookLoop b p :: (mid ++ [Event.EndContext q])) = origsOf mid := by
  show origsOf (mid ++ [Event.EndContext q]) = origsOf mid
  rw [origsOf_append]
  exact List.append_nil _

theorem nextsOf_frame (b : Bool) (p q : Int) (mid : List (Event D A)) :
    nextsOf (Event.SetupHookLoop b p :: (mid ++ [Event.EndContext q])) = nextsOf mid := by
  show nextsOf (mid ++ [Event.EndContext q]) = nextsOf mid
  rw [nextsOf_append]
  exact List.append_nil _

theorem lifecycleOf_frame (b : Bool) (p q : Int) (mid : List (Event D A))
    (hmid : lifecycleOf mid = []) :
    lifecycleOf (Event.SetupHookLoop b p :: (mid ++ [Event.EndContext q])) =
      [Event.SetupHookLoop b p, Event.EndContext q] := by
  show Event.SetupHookLoop b p :: lifecycleOf (mid ++ [Event.EndContext q]) = _
  rw [lifecycleOf_append, hmid]
  rfl

end pairing

/-- C17. Context pairing, for both trampolines and on every path.  The log of
a dispatch starts with the one call of `SetupHookLoop` and ends with the one
call of `EndContext`, whose argument is the context pointer that call of
`SetupHookLoop` returned; everything else, that is every `GetNext()`, every
delegate call, `ShouldCallOrig()` and the original, lies strictly between the
two. -/
theorem Func_context_pairing {D A V : Type} (h : Callees D A V) (hv : Callees D A Unit)
    (ctx : HookContext D) (junk : Mem V) (cjunk : Cells) (params : A) :
    (∃ mid : List (Event D A),
      (Func h ctx junk params).trace =
        Event.SetupHookLoop true ctx.addr :: (mid ++ [Event.EndContext ctx.addr]) ∧
      lifecycleOf mid = [] ∧
      callsOf mid = callsOf (Func h ctx junk params).trace ∧
      origsOf mid = origsOf (Func h ctx junk params).trace ∧
      nextsOf mid = nextsOf (Func h ctx junk params).trace) ∧
    lifecycleOf (Func h ctx junk params).trace =
      [Event.SetupHookLoop true ctx.addr, Event.EndContext ctx.addr] ∧
    (∃ mid : List (Event D A),
      (FuncVoid hv ctx cjunk params).2 =
        Event.SetupHookLoop false ctx.addr :: (mid ++ [Event.EndContext ctx.addr]) ∧
      lifecycleOf mid = [] ∧
      callsOf mid = callsOf (FuncVoid hv ctx cjunk params).2 ∧
      origsOf mid = origsOf (FuncVoid hv ctx cjunk params).2 ∧
      nextsOf mid = nextsOf (FuncVoid hv ctx cjunk params).2) ∧
    lifecycleOf (FuncVoid hv ctx cjunk params).2 =
      [Event.SetupHookLoop false ctx.addr, Event.EndContext ctx.addr] := by
  obtain ⟨mid, htr, hmid⟩ := Func_trace_frame h ctx junk params
  obtain ⟨vmid, hvtr, hvmid⟩ := FuncVoid_trace_frame hv ctx cjunk params
  refine ⟨⟨mid, htr, hmid, ?_, ?_, ?_⟩, ?_, ⟨vmid, hvtr, hvmid, ?_, ?_, ?_⟩, ?_⟩
  · rw [htr, callsOf_frame]
  · rw [htr, origsOf_frame]
  · rw [htr, nextsOf_frame]
  · rw [htr, lifecycleOf_frame true _ _ mid hmid]
  · rw [hvtr, callsOf_frame]
  · rw [hvtr, origsOf_frame]
  · rw [hvtr, nextsOf_frame]
  · rw [hvtr, lifecycleOf_frame false _ _ vmid hvmid]

/-! ## Transparent hooks -/

section transparency

variable {D A V : Type}

theorem overridePtrCalls_append (t u : List (Event D A)) :
    overridePtrCalls (t ++ u) = overridePtrCalls t + overridePtrCalls u := by
  induction t with
  | nil => simp [overridePtrCalls]
  | cons e t ih =>
    cases e
    case GetOverrideRetPtr =>
      show overridePtrCalls (t ++ u) + 1 = overridePtrCalls t + 1 + overridePtrCalls u
      rw [ih]
      omega
    all_goals exact ih

theorem supList_below_override {rs : List META_RES}
    (hrs : ∀ r ∈ rs, ¬ MRES_OVERRIDE ≤ r) : ¬ MRES_OVERRIDE ≤ supList rs := by
  rcases META_RES.supList_mem_or rs with h0 | hmem
  · rw [h0]
    decide
  · exact hrs _ hmem

theorem hookLoop_overridePtrCalls (h : Callees D A V) (ctx : HookContext D) (params : A)
    (ans : List (Option D)) (m : Mem V)
    (hlow : ∀ d ∈ chainOf ans, ¬ MRES_OVERRIDE ≤ resultOf h params d) :
    overridePtrCalls (hookLoop h ctx params ans m).2.2 = 0 := by
  induction ans generalizing m with
  | nil => rfl
  | cons x rest ih =>
    cases x with
    | none => rfl
    | some d =>
      have hd : ¬ MRES_OVERRIDE ≤ resultOf h params d := hlow d (by simp [chainOf])
      have hrest : ∀ e ∈ chainOf rest, ¬ MRES_OVERRIDE ≤ resultOf h params e := by
        intro e he
        exact hlow e (by simp [chainOf, he])
      rw [hookLoop_some]
      show overridePtrCalls ((loopBody h ctx params d m).2 ++ _) = 0
      rw [overridePtrCalls_append, ih _ hrest, loopBody_trace, if_neg hd]
      rfl

theorem origStep_called (h : Callees D A V) (ctx : HookContext D) (params : A) (m : Mem V)
    (hst : m.status ≠ MRES_SUPERCEDE) (hcall : ctx.ShouldCallOrig = true) :
    (origStep h ctx params m).1 = { m with orig_ret := h.Orig params } ∧
    (origStep h ctx params m).2 = [Event.ShouldCallOrig true, Event.Orig params] := by
  unfold origStep
  rw [if_pos hst, hcall]
  exact ⟨rfl, rfl⟩

theorem below_override_of_low {r : META_RES}
    (hr : r = MRES_IGNORED ∨ r = MRES_HANDLED) : ¬ MRES_OVERRIDE ≤ r := by
  rcases hr with hr | hr <;> rw [hr] <;> decide

end transparency

/-- C19. Transparency.  When every delegate of both passes reports
`MRES_IGNORED` or `MRES_HANDLED`, `ShouldCallOrig()` is true and
`GetOrigRetPtr()` designates the `orig_ret` cell handed to `SetupHookLoop`,
then, whatever values the delegates return, the original is invoked exactly
once, `GetOverrideRetPtr()` is never called, so that nothing is written to the
override storage (the `override_ret` local and the host cells keep their
contents), and the caller receives the value the original returned. -/
theorem Func_transparent {D A V : Type} (h : Callees D A V) (ctx : HookContext D)
    (junk : Mem V) (params : A)
    (hres : ∀ d ∈ ctx.preChain ++ ctx.postChain,
      resultOf h params d = MRES_IGNORED ∨ resultOf h params d = MRES_HANDLED)
    (hcall : ctx.ShouldCallOrig = true)
    (hptr : ctx.GetOrigRetPtr = RetPtr.orig_ret) :
    origsOf (Func h ctx junk params).trace = [params] ∧
    overridePtrCalls (Func h ctx junk params).trace = 0 ∧
    (Func h ctx junk params).mem.override_ret = junk.override_ret ∧
    (Func h ctx junk params).mem.host = junk.host ∧
    (Func h ctx junk params).ret = h.Orig params := by
  have hlowpre : ∀ d ∈ chainOf ctx.answers, ¬ MRES_OVERRIDE ≤ resultOf h params d := by
    intro d hd
    exact below_override_of_low (hres d (List.mem_append_left _ hd))
  have hlowpost : ∀ d ∈ chainOf (afterChain ctx.answers),
      ¬ MRES_OVERRIDE ≤ resultOf h params d := by
    intro d hd
    exact below_override_of_low (hres d (List.mem_append_right _ hd))
  have hpre : ¬ MRES_OVERRIDE ≤ (prePass h ctx junk params).1.status := by
    rw [prePass_status]
    apply supList_below_override
    intro r hr
    obtain ⟨d, hd, hdr⟩ := List.mem_map.mp hr
    rw [← hdr]
    exact hlowpre d hd
  have hfin : ¬ MRES_OVERRIDE ≤ (postPass h ctx junk params).1.status := by
    rw [postPass_status]
    apply supList_below_override
    intro r hr
    obtain ⟨d, hd, hdr⟩ := List.mem_map.mp hr
    rw [← hdr]
    exact below_override_of_low (hres d hd)
  have hne : (prePass h ctx junk params).1.status ≠ MRES_SUPERCEDE := by
    intro heq
    rw [heq] at hpre
    exact hpre (by decide)
  obtain ⟨hdecmem, hdectr⟩ := origStep_called h ctx params _ hne hcall
  have hpreread : ∀ p : RetPtr, (prePass h ctx junk params).1.read p = junk.read p := by
    intro p
    have hloop : (prePass h ctx junk params).1 =
        (hookLoop h ctx params ctx.answers
          (preEntry junk)).1 := rfl
    rw [hloop] at hpre ⊢
    rw [hookLoop_read_of_lt h ctx params _ _ hpre]
    cases p <;> rfl
  have hpostread : ∀ p : RetPtr,
      (postPass h ctx junk params).1.read p = (decision h ctx junk params).1.read p := by
    intro p
    have hloop : (postPass h ctx junk params).1 =
        (hookLoop h ctx params (decision h ctx junk params).2.1
          (postEntry h ctx junk params)).1 := rfl
    rw [hloop] at hfin ⊢
    rw [hookLoop_read_of_lt h ctx params _ _ hfin]
    cases p <;> rfl
  have hdec : (decision h ctx junk params).1 =
      { (prePass h ctx junk params).1 with orig_ret := h.Orig params } := hdecmem
  refine ⟨?_, ?_, ?_, ?_, ?_⟩
  · obtain ⟨t2, htr, _, ho2⟩ := Func_trace_split h ctx junk params
    rw [htr, hdectr, origsOf_append, origsOf_append, prePass_origs, ho2]
    rfl
  · rw [Func_trace, postPass_trace, decision_trace, if_neg hfin, hdectr]
    simp only [overridePtrCalls_append]
    rw [hookLoop_overridePtrCalls h ctx params _ _ (by rw [decision_rest]; exact hlowpost)]
    show overridePtrCalls (hookLoop h ctx params ctx.answers _).2.2 + _ + _ + _ = 0
    rw [hookLoop_overridePtrCalls h ctx params _ _ hlowpre]
    rfl
  · rw [Func_mem]
    have h1 := hpostread RetPtr.override_ret
    have h2 := hpreread RetPtr.override_ret
    rw [hdec] at h1
    exact h1.trans h2
  · rw [Func_mem]
    funext k
    have h1 := hpostread (RetPtr.host k)
    have h2 := hpreread (RetPtr.host k)
    rw [hdec] at h1
    exact h1.trans h2
  · rw [Func_ret, if_neg hfin, hptr, hpostread, hdec]
    rfl

/-- Witness of C19 in the example context whose hooks report handled or
nothing: the caller receives the 3 the original returns. -/
theorem Func_transparent_witness :
    (origsOf (Func exCallees exCtxTransparent exJunk 0).trace = [0] ∧
      overridePtrCalls (Func exCallees exCtxTransparent exJunk 0).trace = 0 ∧
      (Func exCallees exCtxTransparent exJunk 0).mem.override_ret = exJunk.override_ret ∧
      (Func exCallees exCtxTransparent exJunk 0).mem.host = exJunk.host ∧
      (Func exCallees exCtxTransparent exJunk 0).ret = exCallees.Orig 0) ∧
    (Func exCallees exCtxTransparent exJunk 0).ret = 3 :=
  ⟨Func_transparent exCallees exCtxTransparent exJunk 0 (by decide) rfl rfl, by decide⟩

/-! ## Argument pass-through -/

/-- C20. Argument pass-through, for both trampolines: the delegate calls of a
dispatch are those of the pre pass followed by those of the post pass, every
one of them receives the argument values the trampoline was called with, and
so does the original when it is invoked, whatever results and values the
delegates produce.  Arguments are substituted only by `Recall`, whose direct
invocation receives `newparams`. -/
theorem Func_argument_pass_through {D A V W : Type} (h : Callees D A V)
    (hv : Callees D A Unit) (ctx : HookContext D) (junk : Mem V) (cjunk : Cells) (params : A)
    (env : RecallEnv A W) (msMFI_ : MemFuncInfo) (result : META_RES) (value : W)
    (newparams : A) :
    (callsOf (Func h ctx junk params).trace =
        expectedCalls h params (ctx.preChain ++ ctx.postChain) ∧
      (∀ x ∈ callsOf (Func h ctx junk params).trace, x.2.1 = params) ∧
      (∀ a ∈ origsOf (Func h ctx junk params).trace, a = params)) ∧
    (callsOf (FuncVoid hv ctx cjunk params).2 =
        expectedCalls hv params (ctx.preChain ++ ctx.postChain) ∧
      (∀ x ∈ callsOf (FuncVoid hv ctx cjunk params).2, x.2.1 = params) ∧
      (∀ a ∈ origsOf (FuncVoid hv ctx cjunk params).2, a = params)) ∧
    (invokesOf (Recall env msMFI_ result value newparams).2).map (fun x => x.2.2) =
      [newparams] := by
  obtain ⟨t2, htr, hc2, ho2⟩ := Func_trace_split h ctx junk params
  obtain ⟨u2, hutr, huc2, huo2⟩ := FuncVoid_trace_split hv ctx cjunk params
  have hcalls : callsOf (Func h ctx junk params).trace =
      expectedCalls h params (ctx.preChain ++ ctx.postChain) := by
    rw [htr, callsOf_append, callsOf_append, prePass_calls, origStep_calls, hc2]
    simp [expectedCalls]
  have hvcalls : callsOf (FuncVoid hv ctx cjunk params).2 =
      expectedCalls hv params (ctx.preChain ++ ctx.postChain) := by
    rw [hutr, callsOf_append, callsOf_append, prePassVoid_calls, origStepVoid_calls, huc2]
    simp [expectedCalls]
  refine ⟨⟨hcalls, ?_, ?_⟩, ⟨hvcalls, ?_, ?_⟩, ?_⟩
  · intro x hx
    rw [hcalls, expectedCalls] at hx
    obtain ⟨d, _, hd⟩ := List.mem_map.mp hx
    rw [← hd]
  · intro a ha
    rw [htr, origsOf_append, origsOf_append, prePass_origs, ho2, List.nil_append,
      List.append_nil] at ha
    rcases origStep_origs h ctx params (prePass h ctx junk params).1 with h0 | h1
    · rw [h0] at ha
      simp at ha
    · rw [h1] at ha
      simpa using ha
  · intro x hx
    rw [hvcalls, expectedCalls] at hx
    obtain ⟨d, _, hd⟩ := List.mem_map.mp hx
    rw [← hd]
  · intro a ha
    rw [hutr, origsOf_append, origsOf_append, prePassVoid_origs, huo2, List.nil_append,
      List.append_nil] at ha
    rcases origStepVoid_origs ctx params (prePassVoid hv ctx cjunk params).1 with h0 | h1
    · rw [h0] at ha
      simp at ha
    · rw [h1] at ha
      simpa using ha
  · cases result <;> rfl

end SourceHook
